import Mathlib

/-!
Verification of the note-taking caching repository (Go sources in `app/app.go`)
against its natural-language specification.

The development shallowly embeds the repository: the Redis cache is an
association list from string keys to field-sets, the relational store is a
list of rows plus an id sequence, and every repository operation is an
executable Lean function mirroring the Go control flow.  External calls
(Redis commands, gorm store primitives, the standard library RFC-3339
timestamp codec and decimal integer codec) are modelled by executable
functions implementing their documented contracts.
-/

namespace NotesRepo

/-! ## Decimal digits -/

/-- Decimal digit test, mirroring the byte-range checks of the Go parsers. -/
def isDigitC (c : Char) : Bool := '0' ≤ c && c ≤ '9'

/-- Numeric value of a decimal digit character. -/
def digitVal (c : Char) : Nat := c.toNat - '0'.toNat

/-- Value of a most-significant-first decimal digit string. -/
def digitsVal (l : List Char) : Nat := l.foldl (fun a c => a * 10 + digitVal c) 0

/-- Fixed-width decimal rendering with leading zeros, least significant digit
written last; `padLeft k n` renders the low `k` digits of `n`. -/
def padLeft : Nat → Nat → List Char
  | 0, _ => []
  | k + 1, n => padLeft k (n / 10) ++ [Nat.digitChar (n % 10)]

/-- Fuel-driven loop of the minimal decimal rendering of a natural number
(no leading zeros), as produced by the Go integer formatters. -/
def natCharsAux : Nat → Nat → List Char
  | 0, _ => []
  | fuel + 1, n =>
    if n < 10 then [Nat.digitChar n]
    else natCharsAux fuel (n / 10) ++ [Nat.digitChar (n % 10)]

/-- Minimal decimal rendering of a natural number. -/
def natChars (n : Nat) : List Char := natCharsAux (n + 1) n

/-- Decimal string of a natural number (contract of the Go uint formatter
used by the Redis client for integer field values). -/
def natStr (n : Nat) : String := ⟨natChars n⟩

/-- Decimal string of an integer, with a leading minus sign when negative
(contract of the verb used to build cache keys from a signed id). -/
def intStr (i : Int) : String :=
  if i < 0 then ⟨'-' :: natChars i.natAbs⟩ else ⟨natChars i.natAbs⟩

/-! ## Errors -/

/-- Error values observable through the repository: sentinel errors of the
application layer, the distinguishable not-found signal of the relational
store, constraint violations, the Redis arity error on an empty DEL, codec
failures, and injected transport failures used to model independently
failing backing stores. -/
inductive Err where
  | duplicateNote
  | somethingWentWrong
  | noteNotFound
  | recordNotFound
  | uniqueViolation
  | wrongNumberOfArguments
  | atoiSyntax
  | atoiRange
  | timeParse
  | injected (k : Nat)
deriving DecidableEq, Repr

instance {α β : Type} [DecidableEq α] [DecidableEq β] : DecidableEq (Except α β)
  | .ok a, .ok b =>
    if h : a = b then .isTrue (by rw [h]) else .isFalse (fun hh => by cases hh; exact h rfl)
  | .ok _, .error _ => .isFalse (fun hh => by cases hh)
  | .error _, .ok _ => .isFalse (fun hh => by cases hh)
  | .error a, .error b =>
    if h : a = b then .isTrue (by rw [h]) else .isFalse (fun hh => by cases hh; exact h rfl)

/-! ## Decimal integer parsing -/

/-- Modelled from the spec: the strconv.Atoi codec used by convertMapToNote;
numeric ids must decimal-parse identically, an optional sign is accepted and
values outside the signed 64-bit range are rejected. -/
def atoi (s : String) : Except Err Int :=
  let p : Bool × List Char :=
    match s.toList with
    | '+' :: r => (false, r)
    | '-' :: r => (true, r)
    | r => (false, r)
  if p.2 = [] then .error .atoiSyntax
  else if p.2.all isDigitC then
    if p.1 then
      if digitsVal p.2 ≤ 2 ^ 63 then .ok (-(digitsVal p.2 : Int)) else .error .atoiRange
    else
      if digitsVal p.2 ≤ 2 ^ 63 - 1 then .ok (digitsVal p.2 : Int) else .error .atoiRange
  else .error .atoiSyntax

/-- Conversion of a signed 64-bit integer to the unsigned 64-bit id column
type, wrapping modulo two to the sixty-fourth power as in Go. -/
def intToUint64 (i : Int) : Nat := (i % (2 ^ 64 : Int)).toNat

/-! ## Timestamps and the RFC-3339 nanosecond codec -/

/-- Modelled from the spec: a timestamp value as carried by the standard
library time type, at the resolution observable through the RFC-3339
nanosecond wire format (civil date, time of day, nanoseconds, and a
minute-resolution UTC offset). -/
structure GoTime where
  year : Nat
  month : Nat
  day : Nat
  hour : Nat
  minute : Nat
  second : Nat
  nsec : Nat
  offMin : Int
deriving DecidableEq, Repr

/-- Zero timestamp (January 1 of year 1, midnight UTC), the value held by a
freshly constructed note before its first insert. -/
def GoTime.zero : GoTime := ⟨1, 1, 1, 0, 0, 0, 0, 0⟩

/-- Number of days in a month of the proleptic Gregorian calendar. -/
def daysInMonth (year month : Nat) : Nat :=
  if month = 2 then
    if year % 4 = 0 ∧ (year % 100 ≠ 0 ∨ year % 400 = 0) then 29 else 28
  else if month = 4 ∨ month = 6 ∨ month = 9 ∨ month = 11 then 30
  else 31

/-- Validity of a timestamp: the ranges enforced by the relational store and
the standard library parser (four-digit year, valid calendar date, valid
time of day, sub-second part below one second, offset below one day). -/
def GoTime.WF (t : GoTime) : Prop :=
  t.year ≤ 9999 ∧ 1 ≤ t.month ∧ t.month ≤ 12 ∧ 1 ≤ t.day ∧
  t.day ≤ daysInMonth t.year t.month ∧ t.hour ≤ 23 ∧ t.minute ≤ 59 ∧
  t.second ≤ 59 ∧ t.nsec < 10 ^ 9 ∧ t.offMin.natAbs ≤ 23 * 60 + 59

instance (t : GoTime) : Decidable t.WF := by
  unfold GoTime.WF
  infer_instance

/-- List with trailing zero characters removed, as done by the standard
library when rendering fractional seconds. -/
def stripTrailing0 (l : List Char) : List Char :=
  (l.reverse.dropWhile (fun c => c = '0')).reverse

/-- Fractional-second part of the nanosecond wire format: empty when the
sub-second part is zero, otherwise a point followed by up to nine digits
with trailing zeros removed. -/
def fmtFrac (nsec : Nat) : List Char :=
  if nsec = 0 then [] else '.' :: stripTrailing0 (padLeft 9 nsec)

/-- Offset suffix of the wire format: the letter Z for UTC, otherwise a
signed hours-and-minutes offset. -/
def fmtOffset (off : Int) : List Char :=
  if off = 0 then ['Z']
  else (if off < 0 then '-' else '+') ::
    (padLeft 2 (off.natAbs / 60) ++ ':' :: padLeft 2 (off.natAbs % 60))

/-- Modelled from the spec: the RFC-3339 rendering with nanosecond precision
produced by the standard library formatter when the Redis client serializes
a timestamp field. -/
def fmtRFC3339Nano (t : GoTime) : String :=
  ⟨padLeft 4 t.year ++ '-' :: padLeft 2 t.month ++ '-' :: padLeft 2 t.day ++
   'T' :: padLeft 2 t.hour ++ ':' :: padLeft 2 t.minute ++ ':' :: padLeft 2 t.second ++
   fmtFrac t.nsec ++ fmtOffset t.offMin⟩

/-- Single-digit step of the timestamp parser. -/
def parseDigit : List Char → Option (Nat × List Char)
  | c :: r => if isDigitC c then some (digitVal c, r) else none
  | [] => none

/-- Accumulating fixed-width decimal field parser. -/
def parseNAux : Nat → Nat → List Char → Option (Nat × List Char)
  | 0, acc, l => some (acc, l)
  | k + 1, acc, l =>
    match parseDigit l with
    | some (d, r) => parseNAux k (acc * 10 + d) r
    | none => none

/-- Fixed-width decimal field parser. -/
def parseN (k : Nat) (l : List Char) : Option (Nat × List Char) := parseNAux k 0 l

/-- Single expected literal character of the timestamp parser. -/
def expectChar (c : Char) : List Char → Option (List Char)
  | c' :: r => if c' = c then some r else none
  | [] => none

/-- Fractional-second parser: absent, or a point followed by one to nine
digits scaled to nanoseconds. -/
def parseFrac (l : List Char) : Option (Nat × List Char) :=
  match l with
  | '.' :: r =>
    let ds := r.takeWhile isDigitC
    if ds.length = 0 ∨ 9 < ds.length then none
    else some (digitsVal ds * 10 ^ (9 - ds.length), r.dropWhile isDigitC)
  | _ => some (0, l)

/-- Offset parser, consuming the remainder of the input: the letter Z, or a
signed hours-and-minutes offset within a day. -/
def parseOffset (l : List Char) : Option Int :=
  if l = ['Z'] then some 0
  else match l with
  | c :: r =>
    if c = '+' ∨ c = '-' then
      match parseN 2 r with
      | some (hh, r₁) =>
        match expectChar ':' r₁ with
        | some r₂ =>
          match parseN 2 r₂ with
          | some (mm, r₃) =>
            if r₃ = [] ∧ hh ≤ 23 ∧ mm ≤ 59 then
              some (if c = '-' then -((hh * 60 + mm : Nat) : Int) else ((hh * 60 + mm : Nat) : Int))
            else none
          | none => none
        | none => none
      | none => none
    else none
  | [] => none

/-- Character-level body of the RFC-3339 nanosecond parser. -/
def parseRFC3339Chars (l : List Char) : Option GoTime :=
    match parseN 4 l with
    | none => none
    | some (y, l₁) =>
    match expectChar '-' l₁ with
    | none => none
    | some l₂ =>
    match parseN 2 l₂ with
    | none => none
    | some (mo, l₃) =>
    match expectChar '-' l₃ with
    | none => none
    | some l₄ =>
    match parseN 2 l₄ with
    | none => none
    | some (d, l₅) =>
    match expectChar 'T' l₅ with
    | none => none
    | some l₆ =>
    match parseN 2 l₆ with
    | none => none
    | some (h, l₇) =>
    match expectChar ':' l₇ with
    | none => none
    | some l₈ =>
    match parseN 2 l₈ with
    | none => none
    | some (mi, l₉) =>
    match expectChar ':' l₉ with
    | none => none
    | some l₁₀ =>
    match parseN 2 l₁₀ with
    | none => none
    | some (sec, l₁₁) =>
    match parseFrac l₁₁ with
    | none => none
    | some (ns, l₁₂) =>
    match parseOffset l₁₂ with
    | none => none
    | some off =>
      if 1 ≤ mo ∧ mo ≤ 12 ∧ 1 ≤ d ∧ d ≤ daysInMonth y mo ∧ h ≤ 23 ∧ mi ≤ 59 ∧ sec ≤ 59 then
        some ⟨y, mo, d, h, mi, sec, ns, off⟩
      else none

/-- Modelled from the spec: the standard library RFC-3339 nanosecond parser
used by convertMapToNote for the two timestamp fields, validating field
ranges and the calendar date. -/
def parseRFC3339Nano (s : String) : Except Err GoTime :=
  match parseRFC3339Chars s.toList with
  | some t => .ok t
  | none => .error .timeParse

/-! ## The Note entity and the cache wire format -/

/-- Note entity: the embedded gorm model fields the repository uses (numeric
id, creation and update timestamps) plus title and content. -/
structure Note where
  id : Nat
  createdAt : GoTime
  updatedAt : GoTime
  title : String
  content : String
deriving DecidableEq, Repr

/-- Validity of a note as shaped by the relational store: the id fits the
signed 64-bit id column and both timestamps are valid. -/
def Note.WF (n : Note) : Prop :=
  n.id ≤ 2 ^ 63 - 1 ∧ n.createdAt.WF ∧ n.updatedAt.WF

instance (n : Note) : Decidable n.WF := by
  unfold Note.WF
  infer_instance

/-- Field-set stored under one cache key (the Redis hash value). -/
abbrev FieldMap := List (String × String)

/-- The whole cache: an association of keys to field-sets. -/
abbrev Cache := List (String × FieldMap)

/-- Read of a field from a field-set, defaulting to the empty string for a
missing field exactly as a Go map read does. -/
def fget (m : FieldMap) (f : String) : String :=
  match m.find? (fun p => p.1 == f) with
  | some p => p.2
  | none => ""

/-- Field update in a field-set, replacing in place or appending. -/
def setField (f v : String) : FieldMap → FieldMap
  | [] => [(f, v)]
  | (g, u) :: rest => if f == g then (f, v) :: rest else (g, u) :: setField f v rest

/-- Whole-record cache read (HGetAll): the field-set under a key, empty when
the key is absent. -/
def hgetAll (c : Cache) (k : String) : FieldMap := (c.lookup k).getD []

/-- Key update in the cache, replacing in place or appending. -/
def cacheSetKey (k : String) (m : FieldMap) : Cache → Cache
  | [] => [(k, m)]
  | (k2, m2) :: rest => if k == k2 then (k, m) :: rest else (k2, m2) :: cacheSetKey k m rest

/-- Field-level cache write (HSET of one field), creating the key if absent. -/
def hsetField (k f v : String) (c : Cache) : Cache :=
  cacheSetKey k (setField f v (hgetAll c k)) c

/-- Removal of a list of keys from the cache (DEL). -/
def delKeys (ks : List String) (c : Cache) : Cache :=
  c.filter (fun p => decide (¬ p.1 ∈ ks))

/-- Cache key derived from a note id as written by cacheNote. -/
def natKey (id : Nat) : String := "notes:" ++ natStr id

/-- Cache key derived from a note title. -/
def titleKey (t : String) : String := "notes:" ++ t

/-- Cache key derived from the signed id parameter of the lookup and delete
paths. -/
def intKey (i : Int) : String := "notes:" ++ intStr i

/-- The five-field cache record of a note, in the order of the field map
literal of cacheNote: id and title and content, then the two timestamps in
the nanosecond wire format. -/
def encodeNote (n : Note) : FieldMap :=
  [("id", natStr n.id), ("title", n.title), ("content", n.content),
   ("created_at", fmtRFC3339Nano n.createdAt), ("updated_at", fmtRFC3339Nano n.updatedAt)]

/-- Shallow embedding of convertMapToNote: converts a cached field-set back
into a note, converting the id with the decimal codec and both timestamps
with the RFC-3339 nanosecond codec, failing on the first malformed field. -/
def convertMapToNote (noteMap : FieldMap) : Except Err Note :=
  match atoi (fget noteMap "id") with
  | .error e => .error e
  | .ok noteID =>
  match parseRFC3339Nano (fget noteMap "created_at") with
  | .error e => .error e
  | .ok createdAt =>
  match parseRFC3339Nano (fget noteMap "updated_at") with
  | .error e => .error e
  | .ok updatedAt =>
  .ok { id := intToUint64 noteID, createdAt := createdAt, updatedAt := updatedAt,
        title := fget noteMap "title", content := fget noteMap "content" }

/-! ## World state, environment, and call log -/

/-- One successful external call, as recorded in the call log.  The del
entry carries the exact keys removed; the cachePut entry is a ghost marker
appended when cacheNote completes, recording the keys written and the note
written under them. -/
inductive Op where
  | del (keys : List String)
  | hset (key field : String)
  | dbFirst (result : Option Note)
  | dbSaveOk (n : Note)
  | dbDeleteOk (id : Int)
  | cachePut (keys : List String) (n : Note)
deriving DecidableEq, Repr

/-- Combined state of the two backing stores plus instrumentation: the
cache, the relational rows, the id sequence of the store, a counter of
relational-store calls (attempted, successful or not), and the log of
successful external calls in execution order. -/
structure World where
  cache : Cache
  rows : List Note
  nextId : Nat
  dbCalls : Nat
  log : List Op
deriving DecidableEq, Repr

/-- Failure knobs of one execution environment: each knob, when set, makes
every call of that primitive fail with the given error, modelling the two
backing stores as independently failing systems. -/
structure Env where
  delErr : Option Err
  hsetErr : Option Err
  firstErr : Option Err
  saveErr : Option Err
  deleteErr : Option Err
deriving DecidableEq, Repr

/-- The failure-free environment. -/
def Env.live : Env := ⟨none, none, none, none, none⟩

/-- Redis DEL of the given keys: fails on an empty key list (the wrong
number of arguments reply) or on an injected transport failure, otherwise
removes the keys and logs the call. -/
def redisDel (env : Env) (keys : List String) (w : World) : Except Err Unit × World :=
  if keys = [] then (.error .wrongNumberOfArguments, w)
  else match env.delErr with
  | some e => (.error e, w)
  | none => (.ok (), { w with cache := delKeys keys w.cache, log := w.log ++ [.del keys] })

/-- Row selection of the store's First finisher, which orders by primary
key and takes one row: the row with the smallest id among those matching
the condition (the first listed on a tie). -/
def minByIdAux : Option Note → List Note → Option Note
  | best, [] => best
  | none, r :: rest => minByIdAux (some r) rest
  | some b, r :: rest => minByIdAux (some (if r.id < b.id then r else b)) rest

/-- First matching row of the relational store in primary-key order. -/
def dbFirstRow (p : Note → Bool) (rows : List Note) : Option Note :=
  minByIdAux none (rows.filter p)

/-- Point lookup in the relational store (the First finisher): counts the
call, fails on an injected failure, and otherwise returns the first row in
primary-key order satisfying the condition the caller built, or the
distinguishable not-found error. -/
def dbFirstBy (env : Env) (p : Note → Bool) (w : World) : Except Err Note × World :=
  let w1 := { w with dbCalls := w.dbCalls + 1 }
  match env.firstErr with
  | some e => (.error e, w1)
  | none =>
    match dbFirstRow p w.rows with
    | some n => (.ok n, { w1 with log := w1.log ++ [.dbFirst (some n)] })
    | none => (.error .recordNotFound, { w1 with log := w1.log ++ [.dbFirst none] })

/-- Timestamp default of the store on insert: a zero-valued tracked time
field is filled with the current time, a nonzero one is kept. -/
def tsOrNow (now t : GoTime) : GoTime := if t = GoTime.zero then now else t

/-- Upsert into the relational store (the Save finisher): counts the call
and, unless the environment injects a failure, inserts with a fresh id when
the note has no positive id, updates all fields refreshing the update
timestamp when a row with its id exists, and inserts with the explicit id
otherwise; unique-title and duplicate-id violations fail the call. -/
def dbSave (env : Env) (now : GoTime) (note : Note) (w : World) : Except Err Note × World :=
  let w1 := { w with dbCalls := w.dbCalls + 1 }
  match env.saveErr with
  | some e => (.error e, w1)
  | none =>
    if note.id = 0 then
      if w.rows.any (fun r => r.title == note.title || r.id == w.nextId) then
        (.error .uniqueViolation, w1)
      else
        let n1 : Note := { id := w.nextId, createdAt := tsOrNow now note.createdAt,
                           updatedAt := tsOrNow now note.updatedAt,
                           title := note.title, content := note.content }
        (.ok n1, { w1 with rows := w.rows ++ [n1], nextId := w.nextId + 1,
                           log := w1.log ++ [.dbSaveOk n1] })
    else
      if (w.rows.find? (fun r => r.id == note.id)).isSome then
        if w.rows.any (fun r => r.title == note.title && r.id != note.id) then
          (.error .uniqueViolation, w1)
        else
          let n1 : Note := { note with updatedAt := now }
          (.ok n1, { w1 with rows := w.rows.map (fun r => if r.id == note.id then n1 else r),
                             log := w1.log ++ [.dbSaveOk n1] })
      else
        if w.rows.any (fun r => r.title == note.title) then
          (.error .uniqueViolation, w1)
        else
          let n1 : Note := { note with createdAt := tsOrNow now note.createdAt,
                                       updatedAt := tsOrNow now note.updatedAt }
          (.ok n1, { w1 with rows := w.rows ++ [n1], log := w1.log ++ [.dbSaveOk n1] })

/-- Delete-by-id in the relational store: counts the call and, unless the
environment injects a failure, removes every row whose id equals the given
signed id; deleting an absent id affects no row and is not an error. -/
def dbDeleteById (env : Env) (id : Int) (w : World) : Except Err Unit × World :=
  let w1 := { w with dbCalls := w.dbCalls + 1 }
  match env.deleteErr with
  | some e => (.error e, w1)
  | none => (.ok (), { w1 with rows := w.rows.filter (fun r => !((r.id : Int) == id)),
                               log := w1.log ++ [.dbDeleteOk id] })

/-! ## Repository operations -/

/-- Outcome of an operation that may terminate the process: a normal result
or a panic carrying the fatal error. -/
inductive Res (α : Type) where
  | ok : α → Res α
  | panicked : Err → Res α
deriving DecidableEq, Repr

/-- Panic discriminator of an outcome. -/
def Res.isPanic {α : Type} : Res α → Bool
  | .ok _ => false
  | .panicked _ => true

/-- Shallow embedding of getNoteFromCache: read the field-set under the key
derived from the signed id; an empty field-set is a miss, and a non-empty
one must convert back into a note or the process panics. -/
def getNoteFromCache (id : Int) (w : World) : Res (Option Note) :=
  let result := hgetAll w.cache (intKey id)
  if result.length = 0 then .ok none
  else match convertMapToNote result with
    | .error e => .panicked e
    | .ok note => .ok (some note)

/-- Shallow embedding of getNoteByTitleFromCache: the same read keyed by the
title. -/
def getNoteByTitleFromCache (title : String) (w : World) : Res (Option Note) :=
  let result := hgetAll w.cache (titleKey title)
  if result.length = 0 then .ok none
  else match convertMapToNote result with
    | .error e => .panicked e
    | .ok note => .ok (some note)

/-- Shallow embedding of deleteFromCache: build the key list from the note's
positive id and non-empty title and issue one DEL for it. -/
def deleteFromCache (env : Env) (note : Note) (w : World) : Except Err Unit × World :=
  let keysToDelete := (if 0 < note.id then [natKey note.id] else []) ++
    (if note.title = "" then [] else [titleKey note.title])
  redisDel env keysToDelete w

/-- Sequential field update of a field-set with a list of fields. -/
def setFields (l : List (String × String)) (m : FieldMap) : FieldMap :=
  l.foldl (fun m p => setField p.1 p.2 m) m

/-- The write loop of cacheNote: for each field in order, one HSET under the
id key followed by one HSET under the title key. -/
def putBoth (idK tK : String) (l : List (String × String)) (c : Cache) : Cache :=
  l.foldl (fun c p => hsetField tK p.1 p.2 (hsetField idK p.1 p.2 c)) c

/-- Shallow embedding of cacheNote: write each of the five fields of the
note record under both the id key and the title key, field by field with
the id key first as the source loop does.  An injected HSET failure fails
the loop at its first write, leaving the cache unchanged; on success the
ten writes are logged followed by the cachePut ghost marker. -/
def cacheNote (env : Env) (note : Note) (w : World) : Except Err Unit × World :=
  match env.hsetErr with
  | some e => (.error e, w)
  | none =>
    let idK := natKey note.id
    let tK := titleKey note.title
    let fields := encodeNote note
    let c1 := putBoth idK tK fields w.cache
    (.ok (), { w with cache := c1,
                      log := w.log ++
                        (fields.map (fun p => [Op.hset idK p.1, Op.hset tK p.1])).flatten ++
                        [.cachePut [idK, tK] note] })

/-- Shallow embedding of SaveNote: invalidate the cache entries for the
note's current id and title, then upsert into the relational store; the
first failure is returned verbatim, and on success the note as stored (with
assigned id and refreshed timestamps) is returned. -/
def SaveNote (env : Env) (now : GoTime) (note : Note) (w : World) : Except Err Note × World :=
  match deleteFromCache env note w with
  | (.error e, w1) => (.error e, w1)
  | (.ok _, w1) => dbSave env now note w1

/-- Shallow embedding of GetNoteById: return the cached note on a non-empty
cache entry; otherwise query the store with First on a destination struct
carrying only the primary key — the ORM builds the condition from the
primary key when it is non-zero and drops it when it is zero, so a zero id
fetches the first row of the table — return no note on the not-found
condition, panic on any other store failure, and cache the found note under
both of its keys (panicking if that fails) before returning it. -/
def GetNoteById (env : Env) (id : Int) (w : World) : Res (Option Note) × World :=
  match getNoteFromCache id w with
  | .panicked e => (.panicked e, w)
  | .ok (some cachedNote) => (.ok (some cachedNote), w)
  | .ok none =>
    match dbFirstBy env (if intToUint64 id = 0 then fun _ => true
      else fun r => r.id == intToUint64 id) w with
    | (.error e, w1) =>
      if e = .recordNotFound then (.ok none, w1) else (.panicked e, w1)
    | (.ok note, w1) =>
      match cacheNote env note w1 with
      | (.error e, w2) => (.panicked e, w2)
      | (.ok _, w2) => (.ok (some note), w2)

/-- Shallow embedding of GetNoteByTitle: the identical protocol keyed by
the title for the cache probe; the store fallback calls First on a
destination struct whose only set field is the non-primary title column, so
the ORM builds no condition at all and the query returns the first row of
the table in primary-key order, whatever its title. -/
def GetNoteByTitle (env : Env) (title : String) (w : World) : Res (Option Note) × World :=
  match getNoteByTitleFromCache title w with
  | .panicked e => (.panicked e, w)
  | .ok (some cachedNote) => (.ok (some cachedNote), w)
  | .ok none =>
    match dbFirstBy env (fun _ => true) w with
    | (.error e, w1) =>
      if e = .recordNotFound then (.ok none, w1) else (.panicked e, w1)
    | (.ok note, w1) =>
      match cacheNote env note w1 with
      | (.error e, w2) => (.panicked e, w2)
      | (.ok _, w2) => (.ok (some note), w2)

/-- Shallow embedding of DeleteNote: probe the cache by id to learn the
cached note (panicking on a corrupt entry), delete its two cache keys when
present, then delete the row by id regardless. -/
def DeleteNote (env : Env) (id : Int) (w : World) : Res (Except Err Unit) × World :=
  match getNoteFromCache id w with
  | .panicked e => (.panicked e, w)
  | .ok (some cachedNote) =>
    match deleteFromCache env cachedNote w with
    | (.error e, w1) => (.ok (.error e), w1)
    | (.ok _, w1) =>
      match dbDeleteById env id w1 with
      | (r, w2) => (.ok r, w2)
  | .ok none =>
    match dbDeleteById env id w with
    | (r, w1) => (.ok r, w1)

/-! ## Application layer -/

/-- Shallow embedding of the application-layer CreateNote: reject with the
duplicate error when a note with the title exists, otherwise build a fresh
note and save it, collapsing any persistence failure into the generic
internal error. -/
def CreateNote (env : Env) (now : GoTime) (title content : String) (w : World) :
    Res (Except Err Note) × World :=
  match GetNoteByTitle env title w with
  | (.panicked e, w1) => (.panicked e, w1)
  | (.ok (some _), w1) => (.ok (.error .duplicateNote), w1)
  | (.ok none, w1) =>
    let note : Note := { id := 0, createdAt := GoTime.zero, updatedAt := GoTime.zero,
                         title := title, content := content }
    match SaveNote env now note w1 with
    | (.error _, w2) => (.ok (.error .somethingWentWrong), w2)
    | (.ok n1, w2) => (.ok (.ok n1), w2)

/-- Shallow embedding of the application-layer UpdateNote: not-found when
the id resolves to no note, otherwise mutate the content and save, mapping
failure to the generic internal error. -/
def UpdateNote (env : Env) (now : GoTime) (id : Int) (content : String) (w : World) :
    Res (Except Err Note) × World :=
  match GetNoteById env id w with
  | (.panicked e, w1) => (.panicked e, w1)
  | (.ok none, w1) => (.ok (.error .noteNotFound), w1)
  | (.ok (some note), w1) =>
    match SaveNote env now { note with content := content } w1 with
    | (.error _, w2) => (.ok (.error .somethingWentWrong), w2)
    | (.ok n1, w2) => (.ok (.ok n1), w2)

/-! ## Ghost readings of the call log -/

/-- Calls that touch neither cache entries nor the put markers. -/
def Op.isNeutral : Op → Bool
  | .del _ => false
  | .cachePut _ _ => false
  | _ => true

/-- Most recent cache population of a key, scanned from the most recent
call: the note put by the last cacheNote covering the key, or nothing when
the key was deleted (or never written) since. -/
def lastCachedRecordAux (k : String) : List Op → Option Note
  | [] => none
  | op :: rest =>
    match op with
    | .cachePut keys n => if k ∈ keys then some n else lastCachedRecordAux k rest
    | .del keys => if k ∈ keys then none else lastCachedRecordAux k rest
    | .hset _ _ => lastCachedRecordAux k rest
    | .dbFirst _ => lastCachedRecordAux k rest
    | .dbSaveOk _ => lastCachedRecordAux k rest
    | .dbDeleteOk _ => lastCachedRecordAux k rest

/-- The record that last populated a cache key since that key was last
invalidated, read off the call log. -/
def lastCachedRecord (log : List Op) (k : String) : Option Note :=
  lastCachedRecordAux k log.reverse

/-- Most recent store read or write of a note id, scanned from the most
recent call: the last row with that id returned by a store lookup or
written by a store save, or nothing when the id-derived cache key was
deleted since. -/
def lastStoreRecordAux (id : Nat) : List Op → Option Note
  | [] => none
  | op :: rest =>
    match op with
    | .dbFirst (some n) => if n.id = id then some n else lastStoreRecordAux id rest
    | .dbSaveOk n => if n.id = id then some n else lastStoreRecordAux id rest
    | .del keys => if natKey id ∈ keys then none else lastStoreRecordAux id rest
    | .dbFirst none => lastStoreRecordAux id rest
    | .hset _ _ => lastStoreRecordAux id rest
    | .dbDeleteOk _ => lastStoreRecordAux id rest
    | .cachePut _ _ => lastStoreRecordAux id rest

/-- The record of a note id last read from or written through the store
since the note's id key was last invalidated, read off the call log. -/
def lastStoreRecord (log : List Op) (id : Nat) : Option Note :=
  lastStoreRecordAux id log.reverse

/-! ## Reachability and the cache mirror invariant -/

/-- One completed repository operation, from any environment, that did not
panic (a panic terminates the process, so its post state is never observed
at rest). -/
inductive Step : World → World → Prop where
  | save (env : Env) (now : GoTime) (note : Note) (w : World) :
      Step w (SaveNote env now note w).2
  | getById (env : Env) (id : Int) (w : World)
      (h : (GetNoteById env id w).1.isPanic = false) :
      Step w (GetNoteById env id w).2
  | getByTitle (env : Env) (title : String) (w : World)
      (h : (GetNoteByTitle env title w).1.isPanic = false) :
      Step w (GetNoteByTitle env title w).2
  | delete (env : Env) (id : Int) (w : World)
      (h : (DeleteNote env id w).1.isPanic = false) :
      Step w (DeleteNote env id w).2

/-- States reachable from an empty cache (and empty call history) with
arbitrary relational rows, through any sequence of repository operations. -/
inductive Reach : World → Prop where
  | init (w : World) (hc : w.cache = []) (hl : w.log = []) : Reach w
  | step {w w2 : World} (h : Reach w) (hs : Step w w2) : Reach w2

/-- Per-key mirror invariant: every cache entry is, byte for byte, the
five-field record of a note that was read from the relational store, namely
the note that last populated that key since the key's last invalidation. -/
def CacheMirrors (w : World) : Prop :=
  ∀ k m, w.cache.lookup k = some m →
    ∃ n, m = encodeNote n ∧ lastCachedRecord w.log k = some n ∧
      Op.dbFirst (some n) ∈ w.log

/-! ## Witness data -/

/-- Concrete timestamp with a full nanosecond fraction, used by witnesses. -/
def tsW1 : GoTime := ⟨2024, 5, 1, 10, 30, 15, 123456789, 0⟩

/-- Concrete timestamp with a small fraction and a negative zone offset. -/
def tsW2 : GoTime := ⟨2023, 12, 31, 23, 59, 59, 5, -330⟩

/-- Concrete persisted note used by witnesses. -/
def noteW : Note := ⟨5, tsW1, tsW2, "groceries", "buy milk"⟩

/-- World whose cache holds the witness note under both keys. -/
def wCachedW : World :=
  ⟨[("notes:5", encodeNote noteW), ("notes:groceries", encodeNote noteW)], [], 6, 0, []⟩

/-- World whose cache holds corrupt entries (malformed id, malformed
timestamp). -/
def wBadW : World :=
  ⟨[("notes:5", [("id", "abc")]),
    ("notes:bad", [("id", "9"), ("created_at", "nope")])], [], 1, 0, []⟩

/-- Empty world used by witnesses. -/
def wEmptyW : World := ⟨[], [], 1, 0, []⟩

/-- Environment whose cache deletions fail with an injected transport
error. -/
def envDelFail : Env := ⟨some (.injected 3), none, none, none, none⟩

/-- Update timestamp used by the C2 witness. -/
def tsUpdW : GoTime := ⟨2024, 6, 1, 0, 0, 0, 0, 0⟩

/-- The previously stored row of the C2 witness scenario. -/
def noteOldW : Note := ⟨1, tsW1, tsW1, "groceries", "buy milk"⟩

/-- The modified note passed to SaveNote by the C2 witness. -/
def noteUpdW : Note := ⟨1, tsW1, tsW1, "groceries", "updated milk"⟩

/-- World of the C2 witness: the old row stored and cached under both keys. -/
def wRowW : World :=
  ⟨[("notes:1", encodeNote noteOldW), ("notes:groceries", encodeNote noteOldW)],
   [noteOldW], 2, 0, []⟩

/-- The saved note of the C2 witness: content updated, timestamp refreshed. -/
def n1W : Note := ⟨1, tsW1, tsUpdW, "groceries", "updated milk"⟩

/-- World of the C4 witness: the row stored, nothing cached. -/
def wRowOnlyW : World := ⟨[], [noteOldW], 2, 0, []⟩

/-- The note created by the C9 witness success path. -/
def nCreatedW : Note := ⟨1, tsUpdW, tsUpdW, "new note", "fresh content"⟩

/-- Claim C1 as the specification states it, formalized per note: in every state
reachable from an empty cache, a cache entry holding the record of a note
must mirror the last record of that note that was read from or written
through the relational store since the last invalidation of the note's
entries (its id key). -/
def C1Stated : Prop :=
  ∀ w, Reach w → ∀ k m (n : Note), w.cache.lookup k = some m → m = encodeNote n →
    lastStoreRecord w.log n.id = some n

/-- Creation time of the note in the C1 trace. -/
def ts1C : GoTime := ⟨2024, 1, 2, 3, 4, 5, 0, 0⟩

/-- Update time of the title-changing save in the C1 trace. -/
def ts3C : GoTime := ⟨2024, 1, 2, 3, 4, 6, 0, 0⟩

/-- Initial world of the C1 trace: empty cache, empty store. -/
def w0C : World := ⟨[], [], 1, 0, []⟩

/-- Fresh note inserted by the first step of the C1 trace. -/
def n0C : Note := ⟨0, GoTime.zero, GoTime.zero, "A", "c"⟩

/-- World after the insert of the C1 trace. -/
def w1C : World := (SaveNote Env.live ts1C n0C w0C).2

/-- The stored row of the C1 trace, as cached by the read-through. -/
def nStoredC : Note := ⟨1, ts1C, ts1C, "A", "c"⟩

/-- World after the read-through of the C1 trace caches note 1 under both
its id key and its title key. -/
def w2C : World := (GetNoteById Env.live 1 w1C).2

/-- Note 1 with a changed title and content, as passed to the final save of
the C1 trace. -/
def nRenamedC : Note := ⟨1, ts1C, ts1C, "B", "c2"⟩

/-- World after the title-changing save of the C1 trace: the save deleted
the keys of the id and the new title, leaving the old-title entry stale. -/
def w3C : World := (SaveNote Env.live ts3C nRenamedC w2C).2

/-- Second stored note of the C4 counterexample, with a higher id and a
different title than the first. -/
def noteBW : Note := ⟨2, tsW1, tsW1, "beta", "b content"⟩

/-- World of the C4 counterexample: two rows with different titles, empty
cache. -/
def wTwoRowsW : World := ⟨[], [noteOldW, noteBW], 3, 0, []⟩

/-- Claim C4 as the specification states it: a note absent from the cache
but present in the relational store is, after GetNoteById (and after
GetNoteByTitle with its title), cached under both its id key and title key
with all five fields matching the stored note exactly, and returned. -/
def C4Stated : Prop :=
  ∀ (w : World) (n : Note), n ∈ w.rows →
    hgetAll w.cache (intKey (n.id : Int)) = [] →
    hgetAll w.cache (titleKey n.title) = [] →
    ((GetNoteById Env.live (n.id : Int) w).1 = .ok (some n) ∧
     (∀ f v, (f, v) ∈ encodeNote n →
       fget (hgetAll (GetNoteById Env.live (n.id : Int) w).2.cache (natKey n.id)) f = v ∧
       fget (hgetAll (GetNoteById Env.live (n.id : Int) w).2.cache (titleKey n.title)) f = v)) ∧
    ((GetNoteByTitle Env.live n.title w).1 = .ok (some n) ∧
     (∀ f v, (f, v) ∈ encodeNote n →
       fget (hgetAll (GetNoteByTitle Env.live n.title w).2.cache (natKey n.id)) f = v ∧
       fget (hgetAll (GetNoteByTitle Env.live n.title w).2.cache (titleKey n.title)) f = v))

theorem digitVal_digitChar {d : Nat} (h : d < 10) :
    digitVal (Nat.digitChar d) = d := by
  interval_cases d <;> rfl

theorem isDigitC_digitChar {d : Nat} (h : d < 10) :
    isDigitC (Nat.digitChar d) = true := by
  interval_cases d <;> rfl

theorem digitChar_ne_zeroChar {d : Nat} (h0 : 0 < d) (h : d < 10) :
    Nat.digitChar d ≠ '0' := by
  interval_cases d <;> decide

theorem digitsVal_append (l₁ l₂ : List Char) :
    digitsVal (l₁ ++ l₂) = l₂.foldl (fun a c => a * 10 + digitVal c) (digitsVal l₁) := by
  simp [digitsVal, List.foldl_append]

theorem digitsVal_append_singleton (l : List Char) (c : Char) :
    digitsVal (l ++ [c]) = digitsVal l * 10 + digitVal c := by
  simp [digitsVal_append, digitsVal]

theorem length_padLeft (k n : Nat) : (padLeft k n).length = k := by
  induction k generalizing n with
  | zero => rfl
  | succ k ih => simp [padLeft, ih]

theorem digitsVal_padLeft (k n : Nat) : digitsVal (padLeft k n) = n % 10 ^ k := by
  induction k generalizing n with
  | zero => simp [padLeft, digitsVal, Nat.mod_one]
  | succ k ih =>
    rw [padLeft, digitsVal_append_singleton, ih, digitVal_digitChar (Nat.mod_lt _ (by norm_num))]
    have h1 : n % 10 ^ (k + 1) / 10 = n / 10 % 10 ^ k := by
      rw [pow_succ, mul_comm, Nat.mod_mul_right_div_self]
    have h2 : n % 10 ^ (k + 1) % 10 = n % 10 := by
      apply Nat.mod_mod_of_dvd
      exact ⟨10 ^ k, by ring⟩
    have h3 := Nat.div_add_mod (n % 10 ^ (k + 1)) 10
    omega

theorem mem_padLeft_isDigit {k n : Nat} {c : Char} (h : c ∈ padLeft k n) :
    isDigitC c = true := by
  induction k generalizing n with
  | zero => simp [padLeft] at h
  | succ k ih =>
    rw [padLeft] at h
    rcases List.mem_append.mp h with h' | h'
    · exact ih h'
    · simp at h'
      subst h'
      exact isDigitC_digitChar (Nat.mod_lt _ (by norm_num))

theorem padLeft_succ_front (k n : Nat) :
    padLeft (k + 1) n = Nat.digitChar (n / 10 ^ k % 10) :: padLeft k (n % 10 ^ k) := by
  induction k generalizing n with
  | zero => simp [padLeft]
  | succ k ih =>
    rw [padLeft, ih, padLeft]
    have h1 : n / 10 / 10 ^ k = n / 10 ^ (k + 1) := by
      rw [Nat.div_div_eq_div_mul, pow_succ, mul_comm]
    have h2 : n / 10 % 10 ^ k = n % 10 ^ (k + 1) / 10 := by
      rw [pow_succ, mul_comm, Nat.mod_mul_right_div_self]
    have h3 : n % 10 = n % 10 ^ (k + 1) % 10 := by
      rw [Nat.mod_mod_of_dvd]
      exact ⟨10 ^ k, by ring⟩
    rw [h1, h2, h3]
    rfl

/-! ### Minimal decimal rendering lemmas -/

theorem natCharsAux_spec :
    ∀ fuel n, n < fuel →
      digitsVal (natCharsAux fuel n) = n ∧
      natCharsAux fuel n ≠ [] ∧
      (∀ c ∈ natCharsAux fuel n, isDigitC c = true)
  | 0, n, h => absurd h (by omega)
  | fuel + 1, n, h => by
    rw [natCharsAux]
    by_cases hn : n < 10
    · simp only [if_pos hn]
      refine ⟨?_, by simp, ?_⟩
      · simpa [digitsVal] using digitVal_digitChar hn
      · intro c hc
        simp at hc
        subst hc
        exact isDigitC_digitChar hn
    · simp only [if_neg hn]
      have hlt : n / 10 < fuel := by
        have := Nat.div_lt_self (by omega : 0 < n) (by norm_num : 1 < 10)
        omega
      obtain ⟨hval, hne, hdig⟩ := natCharsAux_spec fuel (n / 10) hlt
      refine ⟨?_, by simp, ?_⟩
      · rw [digitsVal_append_singleton, hval, digitVal_digitChar (Nat.mod_lt _ (by norm_num))]
        omega
      · intro c hc
        rcases List.mem_append.mp hc with h' | h'
        · exact hdig _ h'
        · simp at h'
          subst h'
          exact isDigitC_digitChar (Nat.mod_lt _ (by norm_num))

theorem digitsVal_natChars (n : Nat) : digitsVal (natChars n) = n :=
  (natCharsAux_spec (n + 1) n (by omega)).1

theorem natChars_ne_nil (n : Nat) : natChars n ≠ [] :=
  (natCharsAux_spec (n + 1) n (by omega)).2.1

theorem natChars_all_digits {n : Nat} {c : Char} (h : c ∈ natChars n) :
    isDigitC c = true :=
  (natCharsAux_spec (n + 1) n (by omega)).2.2 c h

/-! ### Codec round-trip lemmas -/

theorem parseDigit_digitChar {d : Nat} (h : d < 10) (r : List Char) :
    parseDigit (Nat.digitChar d :: r) = some (d, r) := by
  simp [parseDigit, isDigitC_digitChar h, digitVal_digitChar h]

theorem parseNAux_padLeft (k : Nat) :
    ∀ acc n r, n < 10 ^ k →
      parseNAux k acc (padLeft k n ++ r) = some (acc * 10 ^ k + n, r) := by
  induction k with
  | zero =>
    intro acc n r h
    interval_cases n
    simp [padLeft, parseNAux]
  | succ k ih =>
    intro acc n r h
    rw [padLeft_succ_front, List.cons_append, parseNAux,
      parseDigit_digitChar (Nat.mod_lt _ (by norm_num))]
    dsimp only
    rw [ih _ _ _ (Nat.mod_lt _ (by positivity))]
    have h1 : n / 10 ^ k < 10 := by
      rw [Nat.div_lt_iff_lt_mul (by positivity)]
      calc n < 10 ^ (k + 1) := h
        _ = 10 * 10 ^ k := by ring
    have h2 : n / 10 ^ k % 10 = n / 10 ^ k := Nat.mod_eq_of_lt h1
    have h3 : 10 ^ k * (n / 10 ^ k) + n % 10 ^ k = n := Nat.div_add_mod n (10 ^ k)
    have h4 : (10 : Nat) ^ (k + 1) = 10 * 10 ^ k := by ring
    refine congrArg some (Prod.ext ?_ rfl)
    show (acc * 10 + n / 10 ^ k % 10) * 10 ^ k + n % 10 ^ k = acc * 10 ^ (k + 1) + n
    rw [h2, h4]
    ring_nf
    ring_nf at h3
    linarith [h3]

theorem parseN_padLeft {k n : Nat} (r : List Char) (h : n < 10 ^ k) :
    parseN k (padLeft k n ++ r) = some (n, r) := by
  simpa using parseNAux_padLeft k 0 n r h

theorem expectChar_cons (c : Char) (r : List Char) : expectChar c (c :: r) = some r := by
  simp [expectChar]

theorem takeWhile_digits_append {l : List Char} (hl : ∀ x ∈ l, isDigitC x = true)
    {c : Char} (hc : isDigitC c = false) (r : List Char) :
    (l ++ c :: r).takeWhile isDigitC = l ∧ (l ++ c :: r).dropWhile isDigitC = c :: r := by
  induction l with
  | nil => simp [List.takeWhile, List.dropWhile, hc]
  | cons a t ih =>
    have ha : isDigitC a = true := hl a (by simp)
    obtain ⟨h1, h2⟩ := ih (fun x hx => hl x (by simp [hx]))
    simp [List.takeWhile, List.dropWhile, ha, h1, h2]

theorem padLeft_append_split (a b n : Nat) :
    padLeft (a + b) n = padLeft a (n / 10 ^ b) ++ padLeft b (n % 10 ^ b) := by
  induction b generalizing n with
  | zero => simp [padLeft, Nat.mod_one]
  | succ b ih =>
    have h1 : n / 10 / 10 ^ b = n / 10 ^ (b + 1) := by
      rw [Nat.div_div_eq_div_mul, pow_succ, mul_comm]
    have h2 : n / 10 % 10 ^ b = n % 10 ^ (b + 1) / 10 := by
      rw [pow_succ, mul_comm, Nat.mod_mul_right_div_self]
    have h3 : n % 10 = n % 10 ^ (b + 1) % 10 := by
      rw [Nat.mod_mod_of_dvd]
      exact ⟨10 ^ b, by ring⟩
    calc padLeft (a + (b + 1)) n = padLeft (a + b + 1) n := by ring_nf
      _ = padLeft (a + b) (n / 10) ++ [Nat.digitChar (n % 10)] := rfl
      _ = padLeft a (n / 10 / 10 ^ b) ++ padLeft b (n / 10 % 10 ^ b)
            ++ [Nat.digitChar (n % 10)] := by rw [ih]
      _ = padLeft a (n / 10 ^ (b + 1)) ++
            (padLeft b (n % 10 ^ (b + 1) / 10) ++ [Nat.digitChar (n % 10 ^ (b + 1) % 10)]) := by
            rw [h1, h2, h3, List.append_assoc]
      _ = padLeft a (n / 10 ^ (b + 1)) ++ padLeft (b + 1) (n % 10 ^ (b + 1)) := rfl

theorem padLeft_zero_eq_replicate (j : Nat) : padLeft j 0 = List.replicate j '0' := by
  induction j with
  | zero => rfl
  | succ j ih =>
    rw [padLeft, Nat.zero_div, Nat.zero_mod, ih, List.replicate_succ']
    rfl

theorem dropWhile_replicate_prepend {p : Char → Bool} {a : Char} (hp : p a = true)
    (j : Nat) (l : List Char) :
    (List.replicate j a ++ l).dropWhile p = l.dropWhile p := by
  induction j with
  | zero => rfl
  | succ j ih => simp [List.replicate_succ, List.dropWhile, hp, ih]

/-- Shape of the trimmed nanosecond digit string: for a positive sub-second
value, trimming the nine-digit rendering leaves the digits of the value with
its trailing decimal zeros divided out. -/
theorem stripTrailing0_padLeft9 {n : Nat} (h0 : 0 < n) (h9 : n < 10 ^ 9) :
    ∃ j, j ≤ 8 ∧ 10 ^ j ∣ n ∧
      stripTrailing0 (padLeft 9 n) = padLeft (9 - j) (n / 10 ^ j) ∧
      n / 10 ^ j % 10 ≠ 0 := by
  set P : Nat → Prop := fun j => 10 ^ j ∣ n with hP
  have hP0 : P 0 := by simp [hP]
  set j := Nat.findGreatest P 8 with hj
  have hj8 : j ≤ 8 := Nat.findGreatest_le 8
  have hdvd : P j := Nat.findGreatest_spec (m := 0) (by omega) hP0
  have hnext : ¬ P (j + 1) := by
    by_cases hcase : j < 8
    · exact Nat.findGreatest_is_greatest (show Nat.findGreatest P 8 < j + 1 by omega) (by omega)
    · have hj8' : j = 8 := by omega
      intro hd
      rw [hj8'] at hd
      have := Nat.le_of_dvd h0 hd
      norm_num at this h9
      omega
  have hmod : n / 10 ^ j % 10 ≠ 0 := by
    intro hz
    apply hnext
    have h10 : (10 : Nat) ∣ n / 10 ^ j := Nat.dvd_of_mod_eq_zero hz
    obtain ⟨c, hc⟩ := h10
    obtain ⟨d, hd⟩ := hdvd
    refine ⟨c, ?_⟩
    have hpow : (0 : Nat) < 10 ^ j := by positivity
    have : n / 10 ^ j = d := by
      rw [hd]
      exact Nat.mul_div_cancel_left d hpow
    rw [hd, ← this, hc]
    ring
  refine ⟨j, hj8, hdvd, ?_, hmod⟩
  have hsplit : padLeft 9 n = padLeft (9 - j) (n / 10 ^ j) ++ padLeft j (n % 10 ^ j) := by
    have := padLeft_append_split (9 - j) j n
    rwa [Nat.sub_add_cancel (by omega)] at this
  have hpow : (0 : Nat) < 10 ^ j := by positivity
  have hmodz : n % 10 ^ j = 0 := by
    obtain ⟨d, hd⟩ := hdvd
    rw [hd]
    exact Nat.mul_mod_right _ _
  have hv10 : n / 10 ^ j % 10 < 10 := Nat.mod_lt _ (by norm_num)
  have hA : padLeft (9 - j) (n / 10 ^ j) =
      padLeft (9 - j - 1) (n / 10 ^ j / 10) ++ [Nat.digitChar (n / 10 ^ j % 10)] := by
    have h1 : 9 - j = (9 - j - 1) + 1 := by omega
    rw [h1]
    rfl
  have hdc : (decide (Nat.digitChar (n / 10 ^ j % 10) = '0')) = false := by
    simp only [decide_eq_false_iff_not]
    exact digitChar_ne_zeroChar (by omega) hv10
  rw [hsplit, hmodz, padLeft_zero_eq_replicate]
  unfold stripTrailing0
  rw [List.reverse_append, List.reverse_replicate, hA, List.reverse_append]
  simp only [List.reverse_cons, List.reverse_nil, List.nil_append, List.cons_append,
    List.singleton_append]
  rw [dropWhile_replicate_prepend (by simp) j]
  rw [List.dropWhile_cons]
  simp only [hdc, Bool.false_eq_true, if_false, if_neg]
  simp [List.reverse_cons, List.reverse_reverse, hA]

theorem isDigitC_ne_signs {c : Char} (h : isDigitC c = true) :
    c ≠ '+' ∧ c ≠ '-' ∧ c ≠ '.' ∧ c ≠ ':' ∧ c ≠ 'Z' := by
  refine ⟨?_, ?_, ?_, ?_, ?_⟩ <;> rintro rfl <;> simp [isDigitC] at h

theorem fmtOffset_shape (off : Int) :
    ∃ c r, fmtOffset off = c :: r ∧ isDigitC c = false ∧ c ≠ '.' := by
  unfold fmtOffset
  by_cases h : off = 0
  · exact ⟨'Z', [], by simp [h], by decide, by decide⟩
  · by_cases h2 : off < 0
    · exact ⟨'-', padLeft 2 (off.natAbs / 60) ++ ':' :: padLeft 2 (off.natAbs % 60),
        by simp [h, h2], by decide, by decide⟩
    · exact ⟨'+', padLeft 2 (off.natAbs / 60) ++ ':' :: padLeft 2 (off.natAbs % 60),
        by simp [h, h2], by decide, by decide⟩

theorem parseFrac_not_dot {c : Char} (hc : c ≠ '.') (r : List Char) :
    parseFrac (c :: r) = some (0, c :: r) := by
  unfold parseFrac
  split
  next heq =>
    rw [List.cons.injEq] at heq
    exact absurd heq.1 hc
  next => rfl

theorem parseFrac_fmtFrac {n : Nat} (h9 : n < 10 ^ 9) {c : Char}
    (hcd : isDigitC c = false) (hcdot : c ≠ '.') (r : List Char) :
    parseFrac (fmtFrac n ++ c :: r) = some (n, c :: r) := by
  by_cases h0 : n = 0
  · subst h0
    rw [fmtFrac, if_pos rfl, List.nil_append]
    exact parseFrac_not_dot hcdot r
  · obtain ⟨j, hj8, hdvd, hstrip, hmod⟩ := stripTrailing0_padLeft9 (by omega) h9
    rw [fmtFrac, if_neg h0, List.cons_append, hstrip]
    have hdigits : ∀ x ∈ padLeft (9 - j) (n / 10 ^ j), isDigitC x = true :=
      fun x hx => mem_padLeft_isDigit hx
    obtain ⟨htake, hdrop⟩ := takeWhile_digits_append hdigits hcd r
    have hlen : (padLeft (9 - j) (n / 10 ^ j)).length = 9 - j := length_padLeft _ _
    have hvlt : n / 10 ^ j < 10 ^ (9 - j) := by
      rw [Nat.div_lt_iff_lt_mul (by positivity)]
      calc n < 10 ^ 9 := h9
        _ = 10 ^ (9 - j) * 10 ^ j := by
          rw [← pow_add, Nat.sub_add_cancel (by omega)]
    have hval : digitsVal (padLeft (9 - j) (n / 10 ^ j)) = n / 10 ^ j := by
      rw [digitsVal_padLeft, Nat.mod_eq_of_lt hvlt]
    rw [parseFrac]
    simp only [htake, hdrop, hlen, hval]
    rw [if_neg (by omega)]
    have hnine : 9 - (9 - j) = j := by omega
    rw [hnine, Nat.div_mul_cancel hdvd]

theorem parseOffset_fmtOffset {off : Int} (h : off.natAbs ≤ 1439) :
    parseOffset (fmtOffset off) = some off := by
  by_cases h0 : off = 0
  · subst h0
    rfl
  · have hsign : fmtOffset off = (if off < 0 then '-' else '+') ::
        (padLeft 2 (off.natAbs / 60) ++ ':' :: padLeft 2 (off.natAbs % 60)) := by
      rw [fmtOffset, if_neg h0]
    have hh23 : off.natAbs / 60 ≤ 23 := by omega
    have hmm : off.natAbs % 60 ≤ 59 := by omega
    have hone : parseN 2 (padLeft 2 (off.natAbs / 60) ++ ':' :: padLeft 2 (off.natAbs % 60)) =
        some (off.natAbs / 60, ':' :: padLeft 2 (off.natAbs % 60)) :=
      parseN_padLeft _ (by omega)
    have htwo : parseN 2 (padLeft 2 (off.natAbs % 60)) = some (off.natAbs % 60, []) := by
      have := parseN_padLeft (k := 2) (n := off.natAbs % 60) [] (by omega)
      rwa [List.append_nil] at this
    have hne : fmtOffset off ≠ ['Z'] := by
      rw [hsign]
      intro hcontra
      rw [List.cons.injEq] at hcontra
      have := congrArg List.length hcontra.2
      simp [length_padLeft] at this
    rw [parseOffset.eq_def, if_neg hne, hsign]
    have hsum : off.natAbs / 60 * 60 + off.natAbs % 60 = off.natAbs := by omega
    by_cases hneg : off < 0
    · simp only [if_pos hneg]
      simp [hone, expectChar_cons, htwo, hh23, hmm, hsum]
      rw [abs_of_neg hneg]
      ring
    · simp only [if_neg hneg]
      simp [hone, expectChar_cons, htwo, hh23, hmm, hsum]
      omega

/-- Character-level round trip of the timestamp codec. -/
theorem parseRFC3339Chars_fmt {t : GoTime} (h : t.WF) :
    parseRFC3339Chars (fmtRFC3339Nano t).toList = some t := by
  obtain ⟨h1, h2, h3, h4, h5, h6, h7, h8, h9, h10⟩ := h
  obtain ⟨c, r, hoff, hcdig, hcdot⟩ := fmtOffset_shape t.offMin
  have hfrac : parseFrac (fmtFrac t.nsec ++ fmtOffset t.offMin) =
      some (t.nsec, fmtOffset t.offMin) := by
    rw [hoff]
    exact parseFrac_fmtFrac h9 hcdig hcdot r
  rw [fmtRFC3339Nano]
  have htl : (String.mk (padLeft 4 t.year ++ ('-' :: padLeft 2 t.month) ++
      ('-' :: padLeft 2 t.day) ++ ('T' :: padLeft 2 t.hour) ++ (':' :: padLeft 2 t.minute) ++
      (':' :: padLeft 2 t.second) ++ fmtFrac t.nsec ++ fmtOffset t.offMin)).toList =
      padLeft 4 t.year ++ ('-' :: (padLeft 2 t.month ++ ('-' :: (padLeft 2 t.day ++
      ('T' :: (padLeft 2 t.hour ++ (':' :: (padLeft 2 t.minute ++
      (':' :: (padLeft 2 t.second ++ (fmtFrac t.nsec ++ fmtOffset t.offMin))))))))))) := by
    simp [String.toList, List.append_assoc]
  simp only [parseRFC3339Chars, htl,
    parseN_padLeft _ (show t.year < 10 ^ 4 by norm_num; omega),
    expectChar_cons, parseN_padLeft _ (show t.month < 10 ^ 2 by norm_num; omega),
    parseN_padLeft _ (show t.day < 10 ^ 2 by
      have hd31 : daysInMonth t.year t.month ≤ 31 := by
        unfold daysInMonth
        split <;> (try split) <;> norm_num
      norm_num
      omega),
    parseN_padLeft _ (show t.hour < 10 ^ 2 by norm_num; omega),
    parseN_padLeft _ (show t.minute < 10 ^ 2 by norm_num; omega),
    parseN_padLeft _ (show t.second < 10 ^ 2 by norm_num; omega),
    hfrac, parseOffset_fmtOffset (show t.offMin.natAbs ≤ 1439 by omega)]
  rw [if_pos ⟨h2, h3, h4, h5, h6, h7, h8⟩]

/-- Round trip of the timestamp codec: parsing the RFC-3339 nanosecond
rendering of a valid timestamp recovers it exactly, nanoseconds included. -/
theorem parseRFC3339Nano_fmtRFC3339Nano {t : GoTime} (h : t.WF) :
    parseRFC3339Nano (fmtRFC3339Nano t) = .ok t := by
  unfold parseRFC3339Nano
  rw [parseRFC3339Chars_fmt h]

/-- Round trip of the decimal id codec: the decimal rendering of an id in
the signed 64-bit range parses back to the same value. -/
theorem atoi_natStr {n : Nat} (h : n ≤ 2 ^ 63 - 1) : atoi (natStr n) = .ok (n : Int) := by
  obtain ⟨c, rest, hc⟩ := List.exists_cons_of_ne_nil (natChars_ne_nil n)
  have hcd : isDigitC c = true := natChars_all_digits (by rw [hc]; simp)
  obtain ⟨hplus, hminus, _, _, _⟩ := isDigitC_ne_signs hcd
  have htl : (natStr n).toList = c :: rest := hc
  rw [atoi]
  simp only [htl]
  have hmatch : (match c :: rest with
      | '+' :: r => ((false : Bool), r)
      | '-' :: r => ((true : Bool), r)
      | r => ((false : Bool), r)) = (false, c :: rest) := by
    split
    next heq => rw [List.cons.injEq] at heq; exact absurd heq.1 hplus
    next heq => rw [List.cons.injEq] at heq; exact absurd heq.1 hminus
    next => rfl
  rw [hmatch]
  have hall : (c :: rest).all isDigitC = true := by
    rw [← hc]
    exact List.all_eq_true.mpr fun x hx => natChars_all_digits hx
  have hval : digitsVal (c :: rest) = n := by rw [← hc]; exact digitsVal_natChars n
  simp only [hall, hval, if_neg (by simp : ¬(c :: rest = [])), if_pos rfl, if_pos h]
  rfl

/-- Conversion of a small nonnegative signed value to the unsigned id type
is the identity. -/
theorem intToUint64_ofNat {n : Nat} (h : n < 2 ^ 64) : intToUint64 (n : Int) = n := by
  rw [intToUint64, Int.emod_eq_of_lt (by omega) (by exact_mod_cast h)]
  rfl

/-- Round trip of the cache record of a valid note through the field-set
codec: every field, timestamps included, comes back identical. -/
theorem convertMapToNote_encodeNote {n : Note} (h : n.WF) :
    convertMapToNote (encodeNote n) = .ok n := by
  obtain ⟨h1, h2, h3⟩ := h
  have hid : fget (encodeNote n) "id" = natStr n.id := rfl
  have hca : fget (encodeNote n) "created_at" = fmtRFC3339Nano n.createdAt := rfl
  have hua : fget (encodeNote n) "updated_at" = fmtRFC3339Nano n.updatedAt := rfl
  have hti : fget (encodeNote n) "title" = n.title := rfl
  have hco : fget (encodeNote n) "content" = n.content := rfl
  rw [convertMapToNote, hid, hca, hua, hti, hco, atoi_natStr h1,
    parseRFC3339Nano_fmtRFC3339Nano h2, parseRFC3339Nano_fmtRFC3339Nano h3]
  dsimp only
  rw [intToUint64_ofNat (by omega)]

/-! ### Cache lookup lemmas -/

theorem lookup_cacheSetKey (k : String) (m : FieldMap) (c : Cache) (k2 : String) :
    (cacheSetKey k m c).lookup k2 = if k2 = k then some m else c.lookup k2 := by
  induction c with
  | nil =>
    by_cases h : k2 = k
    · simp [cacheSetKey, List.lookup, h]
    · simp [cacheSetKey, List.lookup, h, show (k2 == k) = false by simpa using h]
  | cons p rest ih =>
    obtain ⟨k1, m1⟩ := p
    rw [cacheSetKey]
    by_cases h1 : k = k1
    · subst h1
      rw [if_pos (by simp)]
      by_cases h2 : k2 = k
      · simp [List.lookup, h2]
      · simp [List.lookup, h2, show (k2 == k) = false by simpa using h2]
    · rw [if_neg (by simpa using h1)]
      by_cases h2 : k2 = k1
      · subst h2
        have hne : ¬k2 = k := fun hh => h1 hh.symm
        simp [List.lookup, hne]
      · simp only [List.lookup, show (k2 == k1) = false by simpa using h2]
        exact ih

theorem lookup_hsetField (k f v : String) (c : Cache) (k2 : String) :
    (hsetField k f v c).lookup k2 =
      if k2 = k then some (setField f v (hgetAll c k)) else c.lookup k2 := by
  rw [hsetField, lookup_cacheSetKey]

theorem lookup_delKeys (ks : List String) (c : Cache) (k : String) :
    (delKeys ks c).lookup k = if k ∈ ks then none else c.lookup k := by
  induction c with
  | nil =>
    by_cases h : k ∈ ks <;> simp [delKeys, h]
  | cons p rest ih =>
    obtain ⟨k1, m1⟩ := p
    rw [delKeys, List.filter_cons]
    by_cases h1 : k1 ∈ ks
    · rw [if_neg (by simpa using h1)]
      rw [delKeys] at ih
      by_cases h2 : k = k1
      · subst h2
        rw [ih, if_pos h1, if_pos h1]
      · rw [ih]
        by_cases h3 : k ∈ ks
        · rw [if_pos h3, if_pos h3]
        · rw [if_neg h3, if_neg h3]
          simp [List.lookup, show (k == k1) = false by simpa using h2]
    · rw [if_pos (by simpa using h1)]
      by_cases h2 : k = k1
      · subst h2
        simp only [List.lookup, beq_self_eq_true]
        rw [if_neg h1]
      · simp only [List.lookup, show (k == k1) = false by simpa using h2]
        rw [delKeys] at ih
        exact ih

theorem setField_setField (f v : String) (m : FieldMap) :
    setField f v (setField f v m) = setField f v m := by
  induction m with
  | nil => simp [setField]
  | cons p rest ih =>
    obtain ⟨g, u⟩ := p
    by_cases h : f = g
    · subst h
      simp [setField]
    · simp [setField, show (f == g) = false by simpa using h, ih]

theorem hgetAll_hsetField (k f v : String) (c : Cache) :
    hgetAll (hsetField k f v c) k = setField f v (hgetAll c k) := by
  rw [hgetAll, lookup_hsetField, if_pos rfl]
  rfl

theorem hgetAll_hsetField_other {k k2 : String} (h : k2 ≠ k) (f v : String) (c : Cache) :
    hgetAll (hsetField k f v c) k2 = hgetAll c k2 := by
  rw [hgetAll, lookup_hsetField, if_neg h]
  rfl

/-- Per-key effect of the interleaved write loop: a key written by the loop
ends with the field list applied to its old field-set; any other key is
untouched. -/
theorem lookup_putBoth (idK tK : String) (l : List (String × String)) (c : Cache)
    (k : String) :
    (putBoth idK tK l c).lookup k =
      if k = tK ∨ k = idK then
        (if l = [] then c.lookup k else some (setFields l (hgetAll c k)))
      else c.lookup k := by
  induction l generalizing c with
  | nil =>
    by_cases h : k = tK ∨ k = idK <;> simp [putBoth, h]
  | cons p l ih =>
    obtain ⟨f, v⟩ := p
    have hstep : putBoth idK tK ((f, v) :: l) c =
        putBoth idK tK l (hsetField tK f v (hsetField idK f v c)) := rfl
    rw [hstep, ih]
    by_cases h : k = tK ∨ k = idK
    · have hget : hgetAll (hsetField tK f v (hsetField idK f v c)) k =
          setField f v (hgetAll c k) := by
        rcases h with h | h
        · subst h
          rw [hgetAll_hsetField]
          by_cases hik : k = idK
          · subst hik
            rw [hgetAll_hsetField, setField_setField]
          · rw [hgetAll_hsetField_other hik]
        · subst h
          by_cases hik : k = tK
          · subst hik
            rw [hgetAll_hsetField, hgetAll_hsetField, setField_setField]
          · rw [hgetAll_hsetField_other hik, hgetAll_hsetField]
      have hlook : (hsetField tK f v (hsetField idK f v c)).lookup k =
          some (hgetAll (hsetField tK f v (hsetField idK f v c)) k) := by
        rcases h with h | h
        · subst h
          rw [hgetAll, lookup_hsetField, if_pos rfl]
          rfl
        · subst h
          by_cases hik : k = tK
          · rw [hgetAll, lookup_hsetField, if_pos hik]
            rfl
          · rw [hgetAll, lookup_hsetField, if_neg hik, lookup_hsetField, if_pos rfl]
            rfl
      rw [if_pos h, if_pos h, if_neg (List.cons_ne_nil _ _)]
      by_cases hl : l = []
      · subst hl
        rw [if_pos rfl, hlook, hget]
        rfl
      · rw [if_neg hl, hget]
        rfl
    · have hne1 : k ≠ tK := fun hh => h (Or.inl hh)
      have hne2 : k ≠ idK := fun hh => h (Or.inr hh)
      rw [if_neg h, if_neg h, lookup_hsetField, if_neg hne1, lookup_hsetField, if_neg hne2]

theorem setFields_encodeNote_nil (n : Note) : setFields (encodeNote n) [] = encodeNote n := rfl

theorem setFields_encodeNote_over (n n0 : Note) :
    setFields (encodeNote n) (encodeNote n0) = encodeNote n := rfl

theorem lastCachedRecordAux_neutral_append {l : List Op} (k : String)
    (h : ∀ op ∈ l, op.isNeutral = true) (rest : List Op) :
    lastCachedRecordAux k (l ++ rest) = lastCachedRecordAux k rest := by
  induction l with
  | nil => rfl
  | cons op l ih =>
    have hop : op.isNeutral = true := h op (by simp)
    have hl : ∀ op ∈ l, op.isNeutral = true := fun o ho => h o (by simp [ho])
    cases op with
    | del keys => simp [Op.isNeutral] at hop
    | cachePut keys n => simp [Op.isNeutral] at hop
    | hset k1 f1 => rw [List.cons_append, lastCachedRecordAux, ih hl]
    | dbFirst r => rw [List.cons_append, lastCachedRecordAux, ih hl]
    | dbSaveOk n => rw [List.cons_append, lastCachedRecordAux, ih hl]
    | dbDeleteOk i => rw [List.cons_append, lastCachedRecordAux, ih hl]

theorem lastCachedRecord_append_neutral {l : List Op} (log : List Op) (k : String)
    (h : ∀ op ∈ l, op.isNeutral = true) :
    lastCachedRecord (log ++ l) k = lastCachedRecord log k := by
  rw [lastCachedRecord, lastCachedRecord, List.reverse_append,
    lastCachedRecordAux_neutral_append k (fun op ho => h op (by simpa using ho))]

theorem lastCachedRecord_append_del (log : List Op) (ks : List String) (k : String) :
    lastCachedRecord (log ++ [.del ks]) k =
      if k ∈ ks then none else lastCachedRecord log k := by
  rw [lastCachedRecord, List.reverse_append]
  rfl

theorem lastCachedRecord_append_put (log : List Op) (hs : List Op) (ks : List String)
    (n : Note) (k : String) (hneutral : ∀ op ∈ hs, op.isNeutral = true) :
    lastCachedRecord (log ++ hs ++ [.cachePut ks n]) k =
      if k ∈ ks then some n else lastCachedRecord log k := by
  rw [lastCachedRecord, List.reverse_append, List.reverse_append]
  show lastCachedRecordAux k (.cachePut ks n :: (hs.reverse ++ log.reverse)) = _
  rw [lastCachedRecordAux]
  by_cases h : k ∈ ks
  · rw [if_pos h, if_pos h]
  · rw [if_neg h, if_neg h,
      lastCachedRecordAux_neutral_append k (fun op ho => hneutral op (by simpa using ho))]
    rfl

theorem cacheMirrors_of_neutral_ext {w w2 : World} (h : CacheMirrors w)
    (hc : w2.cache = w.cache) {l : List Op} (hl : w2.log = w.log ++ l)
    (hneu : ∀ op ∈ l, op.isNeutral = true) : CacheMirrors w2 := by
  intro k m hm
  rw [hc] at hm
  obtain ⟨n, h1, h2, h3⟩ := h k m hm
  exact ⟨n, h1, by rw [hl, lastCachedRecord_append_neutral _ _ hneu]; exact h2,
    by rw [hl]; exact List.mem_append_left _ h3⟩

theorem cacheMirrors_of_del {w w2 : World} (h : CacheMirrors w) (ks : List String)
    (hc : w2.cache = delKeys ks w.cache) (hl : w2.log = w.log ++ [.del ks]) :
    CacheMirrors w2 := by
  intro k m hm
  rw [hc, lookup_delKeys] at hm
  by_cases hk : k ∈ ks
  · rw [if_pos hk] at hm
    cases hm
  · rw [if_neg hk] at hm
    obtain ⟨n, h1, h2, h3⟩ := h k m hm
    refine ⟨n, h1, ?_, by rw [hl]; exact List.mem_append_left _ h3⟩
    rw [hl, lastCachedRecord_append_del, if_neg hk]
    exact h2

theorem cacheMirrors_redisDel (env : Env) (keys : List String) {w : World}
    (h : CacheMirrors w) : CacheMirrors (redisDel env keys w).2 := by
  rw [redisDel]
  by_cases hk : keys = []
  · rw [if_pos hk]
    exact h
  · rw [if_neg hk]
    rcases env.delErr with _ | e
    · exact cacheMirrors_of_del h keys rfl rfl
    · exact h

theorem cacheMirrors_dbFirstBy (env : Env) (p : Note → Bool) {w : World}
    (h : CacheMirrors w) : CacheMirrors (dbFirstBy env p w).2 := by
  rw [dbFirstBy]
  rcases env.firstErr with _ | e
  · dsimp only
    rcases dbFirstRow p w.rows with _ | n
    · exact cacheMirrors_of_neutral_ext h rfl rfl
        (by intro op hop; simp at hop; subst hop; rfl)
    · exact cacheMirrors_of_neutral_ext h rfl rfl
        (by intro op hop; simp at hop; subst hop; rfl)
  · exact h

theorem cacheMirrors_dbSave (env : Env) (now : GoTime) (note : Note) {w : World}
    (h : CacheMirrors w) : CacheMirrors (dbSave env now note w).2 := by
  rw [dbSave]
  rcases env.saveErr with _ | e
  · dsimp only
    by_cases h0 : note.id = 0
    · rw [if_pos h0]
      by_cases hc : w.rows.any fun r => r.title == note.title || r.id == w.nextId
      · rw [if_pos hc]
        exact h
      · rw [if_neg hc]
        exact cacheMirrors_of_neutral_ext h rfl rfl
          (by intro op hop; simp at hop; subst hop; rfl)
    · rw [if_neg h0]
      by_cases hfind : (w.rows.find? fun r => r.id == note.id).isSome
      · rw [if_pos hfind]
        by_cases hdup : w.rows.any fun r => r.title == note.title && r.id != note.id
        · rw [if_pos hdup]
          exact h
        · rw [if_neg hdup]
          exact cacheMirrors_of_neutral_ext h rfl rfl
            (by intro op hop; simp at hop; subst hop; rfl)
      · rw [if_neg hfind]
        by_cases hdup : w.rows.any fun r => r.title == note.title
        · rw [if_pos hdup]
          exact h
        · rw [if_neg hdup]
          exact cacheMirrors_of_neutral_ext h rfl rfl
            (by intro op hop; simp at hop; subst hop; rfl)
  · exact h

theorem cacheMirrors_dbDeleteById (env : Env) (id : Int) {w : World}
    (h : CacheMirrors w) : CacheMirrors (dbDeleteById env id w).2 := by
  rw [dbDeleteById]
  rcases env.deleteErr with _ | e
  · exact cacheMirrors_of_neutral_ext h rfl rfl
      (by intro op hop; simp at hop; subst hop; rfl)
  · exact h

theorem encodeNote_ne_nil (n : Note) : encodeNote n ≠ [] := by
  simp [encodeNote]

theorem cacheMirrors_cacheNote (env : Env) {n : Note} {w : World} (h : CacheMirrors w)
    (hmem : Op.dbFirst (some n) ∈ w.log) : CacheMirrors (cacheNote env n w).2 := by
  rw [cacheNote]
  rcases env.hsetErr with _ | e
  · dsimp only
    intro k m hm
    rw [lookup_putBoth] at hm
    have hneu : ∀ op ∈ ((encodeNote n).map fun p =>
        [Op.hset (natKey n.id) p.1, Op.hset (titleKey n.title) p.1]).flatten,
        op.isNeutral = true := by
      intro op hop
      rw [List.mem_flatten] at hop
      obtain ⟨l, hl, hop⟩ := hop
      rw [List.mem_map] at hl
      obtain ⟨p, _, hl⟩ := hl
      subst hl
      cases hop with
      | head => rfl
      | tail _ hop2 =>
        cases hop2 with
        | head => rfl
        | tail _ hop3 => cases hop3
    by_cases hk : k = titleKey n.title ∨ k = natKey n.id
    · rw [if_pos hk, if_neg (encodeNote_ne_nil n)] at hm
      have hm2 : m = setFields (encodeNote n) (hgetAll w.cache k) := by
        cases hm
        rfl
      have hmn : m = encodeNote n := by
        rw [hm2, hgetAll]
        cases hlk : w.cache.lookup k with
        | none => exact setFields_encodeNote_nil n
        | some m0 =>
          obtain ⟨n0, hn0, _, _⟩ := h k m0 hlk
          rw [hn0]
          exact setFields_encodeNote_over n n0
      refine ⟨n, hmn, ?_, ?_⟩
      · rw [lastCachedRecord_append_put _ _ _ _ _ hneu, if_pos ?_]
        rcases hk with hk | hk <;> simp [hk]
      · exact List.mem_append_left _ (List.mem_append_left _ hmem)
    · rw [if_neg hk] at hm
      obtain ⟨n0, h1, h2, h3⟩ := h k m hm
      refine ⟨n0, h1, ?_, ?_⟩
      · have hnotin : ¬ k ∈ [natKey n.id, titleKey n.title] := by
          intro hcon
          rcases List.mem_cons.mp hcon with hcon | hcon
          · exact hk (Or.inr hcon)
          · rw [List.mem_singleton] at hcon
            exact hk (Or.inl hcon)
        rw [lastCachedRecord_append_put _ _ _ _ _ hneu, if_neg hnotin]
        exact h2
      · exact List.mem_append_left _ (List.mem_append_left _ h3)
  · exact h

theorem dbFirstBy_ok_mem {env : Env} {p : Note → Bool} {w : World} {n : Note} {w1 : World}
    (h : dbFirstBy env p w = (.ok n, w1)) : Op.dbFirst (some n) ∈ w1.log := by
  rw [dbFirstBy] at h
  rcases henv : env.firstErr with _ | e <;> rw [henv] at h <;> dsimp only at h
  · rcases hf : dbFirstRow p w.rows with _ | n0 <;> rw [hf] at h <;> dsimp only at h
    · have := congrArg Prod.fst h
      simp at this
    · have h1 := congrArg Prod.fst h
      have h2 := congrArg Prod.snd h
      dsimp only at h1 h2
      cases h1
      rw [← h2]
      exact List.mem_append_right _ (by simp)
  · have := congrArg Prod.fst h
    simp at this

theorem cacheMirrors_SaveNote (env : Env) (now : GoTime) (note : Note) {w : World}
    (h : CacheMirrors w) : CacheMirrors (SaveNote env now note w).2 := by
  rw [SaveNote]
  rcases hdel : deleteFromCache env note w with ⟨r1, w1⟩
  have hw1 : CacheMirrors w1 := by
    have h2 := cacheMirrors_redisDel env
      ((if 0 < note.id then [natKey note.id] else []) ++
       (if note.title = "" then [] else [titleKey note.title])) h
    have he : (deleteFromCache env note w).2 = w1 := by rw [hdel]
    rw [← he]
    exact h2
  cases r1 with
  | error e =>
    simp only [hdel]
    exact hw1
  | ok u =>
    simp only [hdel]
    exact cacheMirrors_dbSave env now note hw1

theorem cacheMirrors_GetNoteById (env : Env) (id : Int) {w : World}
    (h : CacheMirrors w) : CacheMirrors (GetNoteById env id w).2 := by
  rw [GetNoteById]
  cases hget : getNoteFromCache id w with
  | panicked e => exact h
  | ok o =>
    cases o with
    | some cn => exact h
    | none =>
      rcases hdb : dbFirstBy env (if intToUint64 id = 0 then fun _ => true
        else fun r => r.id == intToUint64 id) w with ⟨r1, w1⟩
      have hw1 : CacheMirrors w1 := by
        have h2 := cacheMirrors_dbFirstBy env (if intToUint64 id = 0 then fun _ => true
          else fun r => r.id == intToUint64 id) h
        rw [hdb] at h2
        exact h2
      cases r1 with
      | error e =>
        simp only [hdb]
        by_cases he : e = .recordNotFound
        · rw [if_pos he]
          exact hw1
        · rw [if_neg he]
          exact hw1
      | ok nfound =>
        have hmem : Op.dbFirst (some nfound) ∈ w1.log := dbFirstBy_ok_mem hdb
        rcases hcn : cacheNote env nfound w1 with ⟨r2, w2⟩
        have hw2 : CacheMirrors w2 := by
          have h3 := cacheMirrors_cacheNote env hw1 hmem
          rw [hcn] at h3
          exact h3
        cases r2 <;> simp only [hdb, hcn] <;> exact hw2

theorem cacheMirrors_GetNoteByTitle (env : Env) (title : String) {w : World}
    (h : CacheMirrors w) : CacheMirrors (GetNoteByTitle env title w).2 := by
  rw [GetNoteByTitle]
  cases hget : getNoteByTitleFromCache title w with
  | panicked e => exact h
  | ok o =>
    cases o with
    | some cn => exact h
    | none =>
      rcases hdb : dbFirstBy env (fun _ => true) w with ⟨r1, w1⟩
      have hw1 : CacheMirrors w1 := by
        have h2 := cacheMirrors_dbFirstBy env (fun _ => true) h
        rw [hdb] at h2
        exact h2
      cases r1 with
      | error e =>
        simp only [hdb]
        by_cases he : e = .recordNotFound
        · rw [if_pos he]
          exact hw1
        · rw [if_neg he]
          exact hw1
      | ok nfound =>
        have hmem : Op.dbFirst (some nfound) ∈ w1.log := dbFirstBy_ok_mem hdb
        rcases hcn : cacheNote env nfound w1 with ⟨r2, w2⟩
        have hw2 : CacheMirrors w2 := by
          have h3 := cacheMirrors_cacheNote env hw1 hmem
          rw [hcn] at h3
          exact h3
        cases r2 <;> simp only [hdb, hcn] <;> exact hw2

theorem cacheMirrors_DeleteNote (env : Env) (id : Int) {w : World}
    (h : CacheMirrors w) : CacheMirrors (DeleteNote env id w).2 := by
  rw [DeleteNote]
  cases hget : getNoteFromCache id w with
  | panicked e => exact h
  | ok o =>
    cases o with
    | none =>
      rcases hdd : dbDeleteById env id w with ⟨r1, w1⟩
      have h2 := cacheMirrors_dbDeleteById env id h
      rw [hdd] at h2
      simp only [hdd]
      exact h2
    | some cn =>
      rcases hdel : deleteFromCache env cn w with ⟨r1, w1⟩
      have hw1 : CacheMirrors w1 := by
        have h2 := cacheMirrors_redisDel env
          ((if 0 < cn.id then [natKey cn.id] else []) ++
           (if cn.title = "" then [] else [titleKey cn.title])) h
        have he : (deleteFromCache env cn w).2 = w1 := by rw [hdel]
        rw [← he]
        exact h2
      cases r1 with
      | error e =>
        simp only [hdel]
        exact hw1
      | ok u =>
        rcases hdd : dbDeleteById env id w1 with ⟨r2, w2⟩
        have h3 := cacheMirrors_dbDeleteById env id hw1
        rw [hdd] at h3
        simp only [hdel, hdd]
        exact h3

/-- The per-key mirror invariant holds in every reachable state. -/
theorem cacheMirrors_reach {w : World} (h : Reach w) : CacheMirrors w := by
  induction h with
  | init w hc hl =>
    intro k m hm
    rw [hc] at hm
    simp [List.lookup] at hm
  | step h hs ih =>
    cases hs with
    | save env now note w => exact cacheMirrors_SaveNote env now note ih
    | getById env id w hp => exact cacheMirrors_GetNoteById env id ih
    | getByTitle env t w hp => exact cacheMirrors_GetNoteByTitle env t ih
    | delete env id w hp => exact cacheMirrors_DeleteNote env id ih

/-! ## Helper lemmas for the claims -/

theorem intKey_natCast (id : Nat) : intKey (id : Int) = natKey id := by
  rw [intKey, natKey, intStr, if_neg (by omega)]
  rfl

theorem fget_setField_self (f v : String) (m : FieldMap) : fget (setField f v m) f = v := by
  induction m with
  | nil => simp [setField, fget, List.find?]
  | cons p rest ih =>
    obtain ⟨g, u⟩ := p
    by_cases h : f = g
    · subst h
      simp [setField, fget, List.find?]
    · rw [setField, if_neg (by simpa using h)]
      rw [fget, List.find?]
      rw [show ((g, u).1 == f) = false by simpa using fun hh => h hh.symm]
      exact ih

theorem fget_setField_other {f g : String} (hne : f ≠ g) (v : String) (m : FieldMap) :
    fget (setField g v m) f = fget m f := by
  induction m with
  | nil =>
    rw [setField, fget, List.find?, show ((g, v).1 == f) = false by
      simpa using fun hh => hne hh.symm]
    rfl
  | cons p rest ih =>
    obtain ⟨g2, u⟩ := p
    by_cases h : g = g2
    · subst h
      rw [setField, if_pos (by simp), fget, List.find?,
        show ((g, v).1 == f) = false by simpa using fun hh => hne hh.symm,
        fget, List.find?, show ((g, u).1 == f) = false by simpa using fun hh => hne hh.symm]
    · rw [setField, if_neg (by simpa using h)]
      by_cases h2 : g2 = f
      · subst h2
        rw [fget, List.find?, show ((g2, u).1 == g2) = true by simp, fget, List.find?,
          show ((g2, u).1 == g2) = true by simp]
      · rw [fget, List.find?, show ((g2, u).1 == f) = false by simpa using h2, fget,
          List.find?, show ((g2, u).1 == f) = false by simpa using h2]
        exact ih

theorem fget_setFields_encode (n : Note) (m0 : FieldMap) {f v : String}
    (h : (f, v) ∈ encodeNote n) : fget (setFields (encodeNote n) m0) f = v := by
  have hunfold : setFields (encodeNote n) m0 =
      setField "updated_at" (fmtRFC3339Nano n.updatedAt)
        (setField "created_at" (fmtRFC3339Nano n.createdAt)
          (setField "content" n.content
            (setField "title" n.title
              (setField "id" (natStr n.id) m0)))) := rfl
  rw [hunfold]
  rw [encodeNote] at h
  rcases List.mem_cons.mp h with heq | h
  · cases heq
    rw [fget_setField_other (by decide), fget_setField_other (by decide),
      fget_setField_other (by decide), fget_setField_other (by decide), fget_setField_self]
  rcases List.mem_cons.mp h with heq | h
  · cases heq
    rw [fget_setField_other (by decide), fget_setField_other (by decide),
      fget_setField_other (by decide), fget_setField_self]
  rcases List.mem_cons.mp h with heq | h
  · cases heq
    rw [fget_setField_other (by decide), fget_setField_other (by decide), fget_setField_self]
  rcases List.mem_cons.mp h with heq | h
  · cases heq
    rw [fget_setField_other (by decide), fget_setField_self]
  rcases List.mem_cons.mp h with heq | h
  · cases heq
    rw [fget_setField_self]
  · cases h

theorem find?_map_update {rows : List Note} {id : Nat} {n1 : Note}
    (hsome : (rows.find? fun r => r.id == id).isSome = true) (hn1 : n1.id = id) :
    ((rows.map fun r => if r.id == id then n1 else r).find? fun r => r.id == id) =
      some n1 := by
  induction rows with
  | nil => simp [List.find?] at hsome
  | cons r rows ih =>
    by_cases h : r.id = id
    · rw [List.map_cons, if_pos (by simpa using h), List.find?_cons_of_pos _ (by simpa using hn1)]
    · rw [List.map_cons, if_neg (by simpa using h),
        List.find?_cons_of_neg _ (by simpa using h)]
      rw [List.find?_cons_of_neg _ (by simpa using h)] at hsome
      exact ih hsome

theorem find?_deleted (rows : List Note) (id : Nat) :
    ((rows.filter fun r => !((r.id : Int) == (id : Nat))).find? fun r => r.id == id) =
      none := by
  induction rows with
  | nil => rfl
  | cons r rows ih =>
    rw [List.filter_cons]
    by_cases h : r.id = id
    · rw [if_neg (by simp [h])]
      exact ih
    · rw [if_pos (by simp; exact_mod_cast h), List.find?_cons_of_neg _ (by simpa using h)]
      exact ih

theorem redisDel_error_world {env : Env} {keys : List String} {w : World} {e : Err}
    (h : (redisDel env keys w).1 = .error e) : (redisDel env keys w).2 = w := by
  rw [redisDel] at h ⊢
  by_cases hk : keys = []
  · rw [if_pos hk]
  · rw [if_neg hk] at h ⊢
    rcases henv : env.delErr with _ | e2
    · rw [henv] at h
      exact Except.noConfusion h
    · rfl

/-! ## Claims -/

/-- Claim C5: serializing a note into the cache field-set (the five-field record
cacheNote writes) and deserializing it back through convertMapToNote yields
an identical id, title, content, created_at and updated_at, timestamps
preserved to nanosecond precision. -/
theorem C5_roundtrip {n : Note} (h : n.WF) : convertMapToNote (encodeNote n) = .ok n :=
  convertMapToNote_encodeNote h

/-- Witness for C5 at a concrete note carrying a nanosecond fraction and a
negative-offset timestamp. -/
theorem C5_roundtrip_witness : noteW.WF ∧ convertMapToNote (encodeNote noteW) = .ok noteW :=
  ⟨by decide, C5_roundtrip (by decide)⟩

/-- Claim C3: when the cache key holds a non-empty field-set that deserializes to
a well-formed note, the lookup returns that cached note and the world is
returned unchanged, so zero calls reach the relational store (the store
call counter and call log are components of the unchanged world); likewise
for the title key and GetNoteByTitle. -/
theorem C3_cache_hit_bypasses_store (env : Env) (w : World) :
    (∀ id m n, hgetAll w.cache (intKey id) = m → m ≠ [] → convertMapToNote m = .ok n →
      GetNoteById env id w = (.ok (some n), w)) ∧
    (∀ t m n, hgetAll w.cache (titleKey t) = m → m ≠ [] → convertMapToNote m = .ok n →
      GetNoteByTitle env t w = (.ok (some n), w)) := by
  constructor
  · intro id m n hm hne hconv
    have hg : getNoteFromCache id w = .ok (some n) := by
      simp only [getNoteFromCache, hm, hconv,
        if_neg (show ¬(m.length = 0) by rw [List.length_eq_zero]; exact hne)]
    rw [GetNoteById, hg]
  · intro t m n hm hne hconv
    have hg : getNoteByTitleFromCache t w = .ok (some n) := by
      simp only [getNoteByTitleFromCache, hm, hconv,
        if_neg (show ¬(m.length = 0) by rw [List.length_eq_zero]; exact hne)]
    rw [GetNoteByTitle, hg]

/-- Witness for C3: a concrete cached note is returned by both lookups with
the world untouched. -/
theorem C3_cache_hit_bypasses_store_witness :
    GetNoteById Env.live 5 wCachedW = (.ok (some noteW), wCachedW) ∧
    GetNoteByTitle Env.live "groceries" wCachedW = (.ok (some noteW), wCachedW) :=
  ⟨(C3_cache_hit_bypasses_store Env.live wCachedW).1 5 (encodeNote noteW) noteW rfl
      (by decide) (by decide),
   (C3_cache_hit_bypasses_store Env.live wCachedW).2 "groceries" (encodeNote noteW) noteW rfl
      (by decide) (by decide)⟩

/-- Claim C7: a non-empty cached field-set whose id or timestamps fail to parse is
not treated as a cache miss: the lookup panics with the deserialization
error, the world (relational store included) untouched — there is no
fallback store query; likewise for GetNoteByTitle. -/
theorem C7_corrupt_cache_panics (env : Env) (w : World) :
    (∀ id m e, hgetAll w.cache (intKey id) = m → m ≠ [] → convertMapToNote m = .error e →
      GetNoteById env id w = (.panicked e, w)) ∧
    (∀ t m e, hgetAll w.cache (titleKey t) = m → m ≠ [] → convertMapToNote m = .error e →
      GetNoteByTitle env t w = (.panicked e, w)) := by
  constructor
  · intro id m e hm hne hconv
    have hg : getNoteFromCache id w = .panicked e := by
      simp only [getNoteFromCache, hm, hconv,
        if_neg (show ¬(m.length = 0) by rw [List.length_eq_zero]; exact hne)]
    rw [GetNoteById, hg]
  · intro t m e hm hne hconv
    have hg : getNoteByTitleFromCache t w = .panicked e := by
      simp only [getNoteByTitleFromCache, hm, hconv,
        if_neg (show ¬(m.length = 0) by rw [List.length_eq_zero]; exact hne)]
    rw [GetNoteByTitle, hg]

/-- Witness for C7: a malformed id field panics the id lookup and a
malformed timestamp field panics the title lookup, both leaving the world
unchanged. -/
theorem C7_corrupt_cache_panics_witness :
    GetNoteById Env.live 5 wBadW = (.panicked .atoiSyntax, wBadW) ∧
    GetNoteByTitle Env.live "bad" wBadW = (.panicked .timeParse, wBadW) :=
  ⟨(C7_corrupt_cache_panics Env.live wBadW).1 5 [("id", "abc")] .atoiSyntax rfl
      (by decide) (by decide),
   (C7_corrupt_cache_panics Env.live wBadW).2 "bad" [("id", "9"), ("created_at", "nope")]
      .timeParse rfl (by decide) (by decide)⟩

/-- Claim C10: when the cache-deletion step of SaveNote fails, SaveNote returns
that error with the world exactly as it was: the relational store is never
touched (no upsert, no store call, rows and id sequence unchanged) and the
cache is unchanged too. -/
theorem C10_del_failure_aborts_save (env : Env) (now : GoTime) (note : Note) (w : World)
    {e : Err} (h : (deleteFromCache env note w).1 = .error e) :
    SaveNote env now note w = (.error e, w) := by
  rw [SaveNote]
  rw [deleteFromCache] at h ⊢
  rcases hdel : redisDel env ((if 0 < note.id then [natKey note.id] else []) ++
      (if note.title = "" then [] else [titleKey note.title])) w with ⟨r1, w1⟩
  rw [hdel] at h
  dsimp only at h
  subst h
  dsimp only
  have hw : w1 = w := by
    have h3 := redisDel_error_world (show (redisDel env ((if 0 < note.id then
      [natKey note.id] else []) ++ (if note.title = "" then []
      else [titleKey note.title])) w).1 = .error e by rw [hdel])
    rw [hdel] at h3
    exact h3
  rw [hw]

/-- Witness for C10: an injected deletion failure aborts a save on the empty
world, which is returned unchanged. -/
theorem C10_del_failure_aborts_save_witness :
    SaveNote envDelFail tsW1 noteW wEmptyW = (.error (.injected 3), wEmptyW) :=
  C10_del_failure_aborts_save envDelFail tsW1 noteW wEmptyW (by decide)

/-- Claim C2: SaveNote on an existing note (positive id, non-empty title, row
present) that returns successfully leaves both the note's id key and title
key absent from the cache, stores the new content in the relational row
(with the update timestamp refreshed), and its call log shows the single
cache deletion of both keys strictly before the store upsert. -/
theorem C2_write_invalidates_before_commit (env : Env) (now : GoTime) (note : Note)
    (w : World) {n1 : Note} {w2 : World}
    (hid : 0 < note.id) (htitle : note.title ≠ "")
    (hrow : (w.rows.find? fun r => r.id == note.id).isSome = true)
    (hsave : SaveNote env now note w = (.ok n1, w2)) :
    n1 = { note with updatedAt := now } ∧
    w2.cache.lookup (natKey note.id) = none ∧
    w2.cache.lookup (titleKey note.title) = none ∧
    w2.rows.find? (fun r => r.id == note.id) = some { note with updatedAt := now } ∧
    w2.log = w.log ++ [.del [natKey note.id, titleKey note.title], .dbSaveOk n1] := by
  rw [SaveNote, deleteFromCache] at hsave
  have hkeys : ((if 0 < note.id then [natKey note.id] else []) ++
      (if note.title = "" then [] else [titleKey note.title])) =
      [natKey note.id, titleKey note.title] := by
    rw [if_pos hid, if_neg htitle]
    rfl
  rw [hkeys, redisDel, if_neg (by simp)] at hsave
  rcases henv : env.delErr with _ | e
  · rw [henv] at hsave
    dsimp only at hsave
    rw [dbSave] at hsave
    rcases hse : env.saveErr with _ | e2
    · rw [hse] at hsave
      dsimp only at hsave
      rw [if_neg (by omega)] at hsave
      rw [if_pos hrow] at hsave
      by_cases hdup : (w.rows.any fun r => r.title == note.title && r.id != note.id) = true
      · rw [if_pos hdup] at hsave
        exact absurd (congrArg Prod.fst hsave) (by simp)
      · rw [if_neg hdup] at hsave
        have h1 := congrArg Prod.fst hsave
        have h2 := congrArg Prod.snd hsave
        dsimp only at h1 h2
        cases h1
        subst h2
        refine ⟨rfl, ?_, ?_, ?_, ?_⟩
        · rw [lookup_delKeys, if_pos (by simp)]
        · rw [lookup_delKeys, if_pos (by simp)]
        · exact find?_map_update hrow rfl
        · simp
    · rw [hse] at hsave
      dsimp only at hsave
      exact absurd (congrArg Prod.fst hsave) (by simp)
  · rw [henv] at hsave
    dsimp only at hsave
    exact absurd (congrArg Prod.fst hsave) (by simp)

/-- Witness for C2 at a concrete cached, persisted note. -/
theorem C2_write_invalidates_before_commit_witness :
    n1W = { noteUpdW with updatedAt := tsUpdW } ∧
    (SaveNote Env.live tsUpdW noteUpdW wRowW).2.cache.lookup (natKey noteUpdW.id) = none ∧
    (SaveNote Env.live tsUpdW noteUpdW wRowW).2.cache.lookup (titleKey noteUpdW.title) = none ∧
    (SaveNote Env.live tsUpdW noteUpdW wRowW).2.rows.find? (fun r => r.id == noteUpdW.id) =
      some { noteUpdW with updatedAt := tsUpdW } ∧
    (SaveNote Env.live tsUpdW noteUpdW wRowW).2.log =
      wRowW.log ++ [.del [natKey noteUpdW.id, titleKey noteUpdW.title], .dbSaveOk n1W] :=
  C2_write_invalidates_before_commit Env.live tsUpdW noteUpdW wRowW (by decide) (by decide)
    (by decide) (by decide)

/-- Counterexample to C4 as stated: with two rows in the store, the
fallback of GetNoteByTitle carries no title condition (the title is not a
primary-key field), so looking up the second row's title returns and caches
the first row instead of the requested note. -/
theorem C4_counterexample : ¬ C4Stated := by
  intro h
  have h2 := ((h wTwoRowsW noteBW (by decide) rfl rfl).2).1
  exact absurd h2 (by decide)

/-- Claim C4 amended: on a cache miss, the read-through caches the note the
store's First query actually returns — for GetNoteById the first row in
primary-key order matching the id condition (every row matches when the
unsigned id is zero), for GetNoteByTitle the first row of the whole table,
since the non-primary title field builds no condition — writing the full
five-field record under that note's own id key and title key with every
field matching exactly, and returning that note; it bears the requested
title only when the first row happens to. -/
theorem C4_read_through_populates_both_keys (env : Env) (w : World)
    (henv1 : env.firstErr = none) (henv2 : env.hsetErr = none) :
    (∀ id n, hgetAll w.cache (intKey id) = [] →
      dbFirstRow (if intToUint64 id = 0 then fun _ => true
        else fun r => r.id == intToUint64 id) w.rows = some n →
      (GetNoteById env id w).1 = .ok (some n) ∧
      (∀ f v, (f, v) ∈ encodeNote n →
        fget (hgetAll (GetNoteById env id w).2.cache (natKey n.id)) f = v ∧
        fget (hgetAll (GetNoteById env id w).2.cache (titleKey n.title)) f = v)) ∧
    (∀ t n, hgetAll w.cache (titleKey t) = [] →
      dbFirstRow (fun _ => true) w.rows = some n →
      (GetNoteByTitle env t w).1 = .ok (some n) ∧
      (∀ f v, (f, v) ∈ encodeNote n →
        fget (hgetAll (GetNoteByTitle env t w).2.cache (natKey n.id)) f = v ∧
        fget (hgetAll (GetNoteByTitle env t w).2.cache (titleKey n.title)) f = v)) := by
  constructor
  · intro id n hmiss hfind
    have hg : getNoteFromCache id w = .ok none := by
      simp only [getNoteFromCache, hmiss]
      rfl
    have hget : GetNoteById env id w =
        (.ok (some n),
         { w with dbCalls := w.dbCalls + 1,
                  cache := putBoth (natKey n.id) (titleKey n.title) (encodeNote n) w.cache,
                  log := (w.log ++ [.dbFirst (some n)]) ++
                    ((encodeNote n).map fun p =>
                      [Op.hset (natKey n.id) p.1, Op.hset (titleKey n.title) p.1]).flatten ++
                    [.cachePut [natKey n.id, titleKey n.title] n] }) := by
      rw [GetNoteById, hg]
      dsimp only
      rw [dbFirstBy, henv1]
      dsimp only
      rw [hfind]
      dsimp only
      rw [cacheNote, henv2]
    refine ⟨by rw [hget], ?_⟩
    intro f v hfv
    rw [hget]
    dsimp only
    constructor
    · rw [hgetAll, lookup_putBoth, if_pos (Or.inr rfl), if_neg (encodeNote_ne_nil n)]
      exact fget_setFields_encode n _ hfv
    · rw [hgetAll, lookup_putBoth, if_pos (Or.inl rfl), if_neg (encodeNote_ne_nil n)]
      exact fget_setFields_encode n _ hfv
  · intro t n hmiss hfind
    have hg : getNoteByTitleFromCache t w = .ok none := by
      simp only [getNoteByTitleFromCache, hmiss]
      rfl
    have hget : GetNoteByTitle env t w =
        (.ok (some n),
         { w with dbCalls := w.dbCalls + 1,
                  cache := putBoth (natKey n.id) (titleKey n.title) (encodeNote n) w.cache,
                  log := (w.log ++ [.dbFirst (some n)]) ++
                    ((encodeNote n).map fun p =>
                      [Op.hset (natKey n.id) p.1, Op.hset (titleKey n.title) p.1]).flatten ++
                    [.cachePut [natKey n.id, titleKey n.title] n] }) := by
      rw [GetNoteByTitle, hg]
      dsimp only
      rw [dbFirstBy, henv1]
      dsimp only
      rw [hfind]
      dsimp only
      rw [cacheNote, henv2]
    refine ⟨by rw [hget], ?_⟩
    intro f v hfv
    rw [hget]
    dsimp only
    constructor
    · rw [hgetAll, lookup_putBoth, if_pos (Or.inr rfl), if_neg (encodeNote_ne_nil n)]
      exact fget_setFields_encode n _ hfv
    · rw [hgetAll, lookup_putBoth, if_pos (Or.inl rfl), if_neg (encodeNote_ne_nil n)]
      exact fget_setFields_encode n _ hfv

/-- Witness for the amended C4: the id lookup on a concrete stored note
populates the title field under the id key and the content field under the
title key and returns the note, and the title lookup on the single-row
world returns the first (and only) row and populates its id field under its
title key. -/
theorem C4_read_through_populates_both_keys_witness :
    ((GetNoteById Env.live 1 wRowOnlyW).1 = .ok (some noteOldW) ∧
     fget (hgetAll (GetNoteById Env.live 1 wRowOnlyW).2.cache (natKey noteOldW.id)) "title" =
       noteOldW.title ∧
     fget (hgetAll (GetNoteById Env.live 1 wRowOnlyW).2.cache (titleKey noteOldW.title))
       "content" = noteOldW.content) ∧
    ((GetNoteByTitle Env.live "groceries" wRowOnlyW).1 = .ok (some noteOldW) ∧
     fget (hgetAll (GetNoteByTitle Env.live "groceries" wRowOnlyW).2.cache
       (titleKey noteOldW.title)) "id" = natStr noteOldW.id) := by
  have h1 := (C4_read_through_populates_both_keys Env.live wRowOnlyW rfl rfl).1 1 noteOldW
    rfl (by decide)
  have h2 := (C4_read_through_populates_both_keys Env.live wRowOnlyW rfl rfl).2 "groceries"
    noteOldW rfl (by decide)
  exact ⟨⟨h1.1, (h1.2 "title" noteOldW.title (by decide)).1,
    (h1.2 "content" noteOldW.content (by decide)).2⟩,
    h2.1, (h2.2 "id" (natStr noteOldW.id) (by decide)).2⟩

/-- Claim C8: deleting a coherently cached, persisted note removes both its cache
keys and every row with that id (a subsequent store lookup by id reports
not found), the row deletion is performed whether or not a cache entry
existed, and a second DeleteNote on the now-absent id also returns no
error. -/
theorem C8_delete_clears_cache_and_row (env : Env)
    (hdelE : env.delErr = none) (hddE : env.deleteErr = none) :
    (∀ (w : World) (id : Nat) (n : Note), hgetAll w.cache (intKey (id : Int)) ≠ [] →
      convertMapToNote (hgetAll w.cache (intKey (id : Int))) = .ok n →
      n.id = id → 0 < id → n.title ≠ "" →
      ∃ w2, DeleteNote env (id : Int) w = (.ok (.ok ()), w2) ∧
        w2.cache.lookup (natKey id) = none ∧
        w2.cache.lookup (titleKey n.title) = none ∧
        (w2.rows.find? fun r => r.id == id) = none ∧
        ∃ w3, DeleteNote env (id : Int) w2 = (.ok (.ok ()), w3)) ∧
    (∀ (w : World) (id : Int), hgetAll w.cache (intKey id) = [] →
      DeleteNote env id w =
        (.ok (.ok ()),
         { w with rows := w.rows.filter (fun r => !((r.id : Int) == id)),
                  dbCalls := w.dbCalls + 1, log := w.log ++ [.dbDeleteOk id] })) := by
  have habsent : ∀ (w : World) (id : Int), hgetAll w.cache (intKey id) = [] →
      DeleteNote env id w =
        (.ok (.ok ()),
         { w with rows := w.rows.filter (fun r => !((r.id : Int) == id)),
                  dbCalls := w.dbCalls + 1, log := w.log ++ [.dbDeleteOk id] }) := by
    intro w id hmiss
    have hg : getNoteFromCache id w = .ok none := by
      simp only [getNoteFromCache, hmiss]
      rfl
    rw [DeleteNote, hg]
    dsimp only
    rw [dbDeleteById, hddE]
  refine ⟨?_, habsent⟩
  intro w id n hne hconv hid hpos htitle
  have hg : getNoteFromCache (id : Int) w = .ok (some n) := by
    simp only [getNoteFromCache, hconv,
      if_neg (show ¬((hgetAll w.cache (intKey (id : Int))).length = 0) by
        rw [List.length_eq_zero]; exact hne)]
  have hkeys : ((if 0 < n.id then [natKey n.id] else []) ++
      (if n.title = "" then [] else [titleKey n.title])) =
      [natKey id, titleKey n.title] := by
    rw [hid, if_pos hpos, if_neg htitle]
    rfl
  have hdel : DeleteNote env (id : Int) w =
      (.ok (.ok ()),
       { w with cache := delKeys [natKey id, titleKey n.title] w.cache,
                rows := w.rows.filter (fun r => !((r.id : Int) == (id : Int))),
                dbCalls := w.dbCalls + 1,
                log := (w.log ++ [.del [natKey id, titleKey n.title]]) ++
                  [.dbDeleteOk (id : Int)] }) := by
    rw [DeleteNote, hg]
    dsimp only
    rw [deleteFromCache, hkeys, redisDel, if_neg (by simp), hdelE]
    dsimp only
    rw [dbDeleteById, hddE]
  refine ⟨_, hdel, ?_, ?_, ?_, ?_⟩
  · rw [lookup_delKeys, if_pos (by simp)]
  · rw [lookup_delKeys, if_pos (by simp)]
  · exact find?_deleted w.rows id
  · refine ⟨_, habsent _ (id : Int) ?_⟩
    rw [hgetAll, intKey_natCast, lookup_delKeys, if_pos (by simp)]
    rfl

/-- Witness for C8 at the concrete cached, persisted note of the C2
scenario. -/
theorem C8_delete_clears_cache_and_row_witness :
    ∃ w2, DeleteNote Env.live (1 : Int) wRowW = (.ok (.ok ()), w2) ∧
      w2.cache.lookup (natKey 1) = none ∧
      w2.cache.lookup (titleKey noteOldW.title) = none ∧
      (w2.rows.find? fun r => r.id == 1) = none ∧
      ∃ w3, DeleteNote Env.live (1 : Int) w2 = (.ok (.ok ()), w3) :=
  (C8_delete_clears_cache_and_row Env.live rfl rfl).1 wRowW 1 noteOldW (by decide)
    (by decide) (by decide) (by decide) (by decide)

/-- Claim C9: the application-layer CreateNote rejects with the duplicate-title
error, performing no save and leaving the state exactly as after the title
lookup, when GetNoteByTitle finds an existing note; otherwise it builds a
fresh note and calls SaveNote, returning the saved note on success and
collapsing any persistence failure into the generic internal error rather
than the raw store error. -/
theorem C9_create_note (env : Env) (now : GoTime) (title content : String) (w : World) :
    (∀ n w1, GetNoteByTitle env title w = (.ok (some n), w1) →
      CreateNote env now title content w = (.ok (.error .duplicateNote), w1)) ∧
    (∀ w1 e w2, GetNoteByTitle env title w = (.ok none, w1) →
      SaveNote env now ⟨0, GoTime.zero, GoTime.zero, title, content⟩ w1 = (.error e, w2) →
      CreateNote env now title content w = (.ok (.error .somethingWentWrong), w2)) ∧
    (∀ w1 n1 w2, GetNoteByTitle env title w = (.ok none, w1) →
      SaveNote env now ⟨0, GoTime.zero, GoTime.zero, title, content⟩ w1 = (.ok n1, w2) →
      CreateNote env now title content w = (.ok (.ok n1), w2)) := by
  refine ⟨?_, ?_, ?_⟩
  · intro n w1 hget
    rw [CreateNote, hget]
  · intro w1 e w2 hget hsave
    rw [CreateNote, hget]
    dsimp only
    rw [hsave]
  · intro w1 n1 w2 hget hsave
    rw [CreateNote, hget]
    dsimp only
    rw [hsave]

/-- Witness for C9: a duplicate title is rejected with the state left as the
title lookup produced it, and a fresh title is saved through SaveNote. -/
theorem C9_create_note_witness :
    CreateNote Env.live tsUpdW "groceries" "other" wRowOnlyW =
      (.ok (.error .duplicateNote), (GetNoteByTitle Env.live "groceries" wRowOnlyW).2) ∧
    CreateNote Env.live tsUpdW "new note" "fresh content" wEmptyW =
      (.ok (.ok nCreatedW),
       (SaveNote Env.live tsUpdW ⟨0, GoTime.zero, GoTime.zero, "new note", "fresh content"⟩
         (GetNoteByTitle Env.live "new note" wEmptyW).2).2) :=
  ⟨(C9_create_note Env.live tsUpdW "groceries" "other" wRowOnlyW).1 noteOldW
     (GetNoteByTitle Env.live "groceries" wRowOnlyW).2 (by decide),
   (C9_create_note Env.live tsUpdW "new note" "fresh content" wEmptyW).2.2
     (GetNoteByTitle Env.live "new note" wEmptyW).2 nCreatedW
     (SaveNote Env.live tsUpdW ⟨0, GoTime.zero, GoTime.zero, "new note", "fresh content"⟩
       (GetNoteByTitle Env.live "new note" wEmptyW).2).2 (by decide) (by decide)⟩

theorem reach_w2C : Reach w2C :=
  Reach.step (Reach.step (Reach.init w0C rfl rfl) (Step.save Env.live ts1C n0C w0C))
    (Step.getById Env.live 1 w1C (by decide))

theorem reach_w3C : Reach w3C :=
  Reach.step reach_w2C (Step.save Env.live ts3C nRenamedC w2C)

/-- Counterexample to C1 as stated: in the reachable world of the C1 trace,
the cache still holds the old record of note 1 under its old title key,
while the last record of note 1 read from or written through the store
since the last invalidation is the renamed row — not a mirror. -/
theorem C1_counterexample : ¬ C1Stated := by
  intro hclaim
  have h := hclaim w3C reach_w3C (titleKey "A") (encodeNote nStoredC) nStoredC
    (by decide) rfl
  exact absurd h (by decide)

/-- Claim C1 amended: in every state reachable from an empty cache, each cache
key holds either nothing, or a byte-for-byte mirror of the record of a note
that was read from the relational store — namely the record that last
populated that key since that key's own last invalidation.  (As stated, with
"the last record read from or written through the store since the last
invalidation" taken per note, the claim fails: a save that changes a note's
title invalidates only the id key and the new-title key, leaving a stale
mirror under the old title key; see the counterexample.) -/
theorem C1_cache_mirror_invariant {w : World} (h : Reach w) :
    ∀ k m, w.cache.lookup k = some m →
      ∃ n, m = encodeNote n ∧ lastCachedRecord w.log k = some n ∧
        Op.dbFirst (some n) ∈ w.log :=
  cacheMirrors_reach h

/-- Witness for the amended C1 at the reachable world of the C1 trace: the
entry under the id key of note 1 is the mirror of the record the
read-through cached. -/
theorem C1_cache_mirror_invariant_witness :
    ∃ n, encodeNote nStoredC = encodeNote n ∧
      lastCachedRecord w2C.log (natKey 1) = some n ∧
      Op.dbFirst (some n) ∈ w2C.log :=
  C1_cache_mirror_invariant reach_w2C (natKey 1) (encodeNote nStoredC) (by decide)

end NotesRepo
